import Mathlib

/-!
A shallow embedding of the comment-threading and reaction-aggregation core of
a social-feed backend (Express + Mongoose, `index.js` plus the `Post`,
`Comment` and `Like` models), together with proofs of the specified
invariants and laws.

Modelling conventions:
* Mongo ObjectIds become `Nat`; a freshly generated id is distinct from every
  id already present anywhere in the store (`freshId`), mirroring ObjectId
  uniqueness.
* `createdAt` timestamps come from a logical clock `DB.now` bumped at each
  insert, mirroring timestamp ordering of `{ timestamps: true }` documents.
* `findByIdAndUpdate` / `findByIdAndDelete` update or remove the first
  document matching the id and are no-ops when no document matches.
* The compound unique index `{ userId: 1, targetId: 1 }` of `LikeSchema` is
  enforced at save time: inserting a second document with the same
  `(userId, targetId)` pair fails with a duplicate-key error, which the
  route's `catch` turns into an opaque server error.
* Counters are `Int`, since `$inc: -1` can in principle drive a Mongo number
  negative; non-negativity is a theorem, not a typing assumption.
-/

namespace Social

/-- The `targetType` discriminator of `LikeSchema` (`enum: ["Post", "Comment"]`). -/
inductive TargetType where
  | post
  | comment
deriving DecidableEq, Repr

/-- A persisted `Post` document (`models/Post.js`). `privacy = none` models a
legacy record where the field is absent (`$exists: false`). -/
structure Post where
  id : Nat
  userId : Nat
  content : String
  image : String
  likesCount : Int
  commentsCount : Int
  privacy : Option String
  createdAt : Nat
deriving DecidableEq, Repr

/-- A persisted `Comment` document (`models/Comment.js`). -/
structure Comment where
  id : Nat
  postId : Nat
  userId : Nat
  content : String
  parentComment : Option Nat
  replyToUser : Option Nat
  likesCount : Int
  replyCount : Int
  createdAt : Nat
deriving DecidableEq, Repr

/-- A persisted `Like` (reaction ledger) document (`models/Like.js`).
The schema defines exactly the paths `userId`, `targetId`, `targetType`,
`type` (plus timestamps); in particular there is no `postId` path. -/
structure Like where
  id : Nat
  userId : Nat
  targetId : Nat
  targetType : TargetType
  type : String
  createdAt : Nat
deriving DecidableEq, Repr

/-- A `Like` document as constructed by `new Like({...})` before validation:
every schema path is still optional.  Paths not declared in the schema
(such as the legacy route's `postId`) are dropped by the strict schema and
therefore do not appear here at all. -/
structure LikeDoc where
  userId : Option Nat
  targetId : Option Nat
  targetType : Option TargetType
  type : Option String
deriving DecidableEq, Repr

/-- The persistent store: the three collections plus the logical clock. -/
structure DB where
  posts : List Post
  comments : List Comment
  likes : List Like
  now : Nat
deriving DecidableEq, Repr

def emptyDB : DB := { posts := [], comments := [], likes := [], now := 0 }

/-- Every id value occurring anywhere in the store (document ids and the
foreign `targetId` keys of reactions). -/
def allIds (db : DB) : List Nat :=
  db.posts.map Post.id ++ db.comments.map Comment.id ++
    db.likes.map Like.id ++ db.likes.map Like.targetId

/-- A freshly generated ObjectId: distinct from every id in the store. -/
def freshId (db : DB) : Nat := (allIds db).foldr max 0 + 1

/-- Model of `findByIdAndUpdate`: update the first document whose id matches, leave
the collection unchanged when none does. -/
def updateById {α : Type} (getId : α → Nat) : List α → Nat → (α → α) → List α
  | [], _, _ => []
  | a :: as, i, f =>
      if getId a = i then f a :: as else a :: updateById getId as i f

/-- Model of `findByIdAndDelete`: remove the first document whose id matches. -/
def removeById {α : Type} (getId : α → Nat) : List α → Nat → List α
  | [], _ => []
  | a :: as, i => if getId a = i then as else a :: removeById getId as i

/-- Insertion step of the sort used to model Mongo's `.sort(...)`:
`before a b` means `a` may be placed in front of `b`. -/
def insertBy {α : Type} (before : α → α → Bool) (x : α) : List α → List α
  | [] => [x]
  | q :: qs => if before x q then x :: q :: qs else q :: insertBy before x qs

/-- Insertion sort modelling Mongo's `.sort(...)`. -/
def sortBy {α : Type} (before : α → α → Bool) : List α → List α
  | [] => []
  | x :: xs => insertBy before x (sortBy before xs)

/-- Comparator of `.sort({ createdAt: -1 })` on reactions. -/
def likeNewestFirst (a b : Like) : Bool := b.createdAt ≤ a.createdAt

/-- Comparator of `.sort({ createdAt: -1 })` on posts. -/
def postNewestFirst (a b : Post) : Bool := b.createdAt ≤ a.createdAt

/-- Comparator of `.sort({ createdAt: -1 })` on comments. -/
def commentNewestFirst (a b : Comment) : Bool := b.createdAt ≤ a.createdAt

/-- Comparator of `.sort({ createdAt: 1 })` on comments. -/
def commentOldestFirst (a b : Comment) : Bool := a.createdAt ≤ b.createdAt

/-- Storage-layer failures of `Like` save: required-path validation
(`userId`, `targetId`, `targetType` are `required: true`) and the compound
unique index `{ userId: 1, targetId: 1 }`. -/
inductive SaveError where
  | validationError
  | duplicateKey
deriving DecidableEq, Repr

/-- The filter `{ userId, targetId }`: the key of the unique compound index. -/
def likeKey (u t : Nat) (l : Like) : Bool :=
  l.userId == u && l.targetId == t

/-- The filter `{ userId, targetId, targetType }` used by the reaction routes. -/
def likeKeyTT (u t : Nat) (tt : TargetType) (l : Like) : Bool :=
  l.userId == u && l.targetId == t && l.targetType == tt

/-- Model of `likeDocument.save()`: validate the required paths, apply the
`default: "Like"` for `type`, enforce the unique `(userId, targetId)` index,
then insert with a fresh id and the current timestamp. -/
def saveLikeDoc (db : DB) (d : LikeDoc) : Except SaveError (Like × DB) :=
  match d.userId, d.targetId, d.targetType with
  | some u, some t, some tt =>
      if db.likes.any (likeKey u t) then
        .error .duplicateKey
      else
        let lk : Like :=
          { id := freshId db, userId := u, targetId := t, targetType := tt,
            type := d.type.getD "Like", createdAt := db.now }
        .ok (lk, { db with likes := lk :: db.likes, now := db.now + 1 })
  | _, _, _ => .error .validationError

/-- Response of `PUT /api/react/:targetType/:id`; `serverError` is the
`catch` branch answering HTTP 500. -/
inductive ReactResult where
  | added (type : String)
  | updated (type : String)
  | removed
  | serverError
deriving DecidableEq, Repr

/-- The document mutation of `$inc: { likesCount: d }` on a post. -/
def bumpPostLikes (d : Int) (p : Post) : Post := { p with likesCount := p.likesCount + d }

/-- The document mutation of `$inc: { likesCount: d }` on a comment. -/
def bumpCommentLikes (d : Int) (c : Comment) : Comment := { c with likesCount := c.likesCount + d }

/-- The document mutation of `$inc: { commentsCount: 1 }` on a post. -/
def bumpPostComments (p : Post) : Post := { p with commentsCount := p.commentsCount + 1 }

/-- The document mutation of `$inc: { replyCount: 1 }` on a comment. -/
def bumpReplyCount (c : Comment) : Comment := { c with replyCount := c.replyCount + 1 }

/-- The in-place mutation `existing.type = reactionType`. -/
def setLikeType (rt : String) (l : Like) : Like := { l with type := rt }

/-- Model of `Post.findByIdAndUpdate(id, { $inc: { likesCount: d } })`. -/
def incPostLikes (db : DB) (pid : Nat) (d : Int) : DB :=
  { db with posts := updateById Post.id db.posts pid (bumpPostLikes d) }

/-- Model of `Comment.findByIdAndUpdate(id, { $inc: { likesCount: d } })`. -/
def incCommentLikes (db : DB) (cid : Nat) (d : Int) : DB :=
  { db with comments := updateById Comment.id db.comments cid (bumpCommentLikes d) }

/-- The `targetType === "Post" ? Post... : Comment...` counter dispatch. -/
def incTargetLikes (db : DB) (tt : TargetType) (i : Nat) (d : Int) : DB :=
  match tt with
  | .post => incPostLikes db i d
  | .comment => incCommentLikes db i d

/-- Route `PUT /api/react/:targetType/:id` (the generic reaction endpoint):
look up the caller's existing reaction on the target; toggle it off when the
requested type matches, mutate its type in place when it differs, otherwise
insert a new reaction and bump the target's `likesCount`.  A storage-layer
save failure is caught and answered as `serverError`. -/
def react (db : DB) (userId : Nat) (tt : TargetType) (i : Nat)
    (reactionType : String) : ReactResult × DB :=
  match db.likes.find? (likeKeyTT userId i tt) with
  | some existing =>
      if existing.type == reactionType then
        let db1 := { db with likes := removeById Like.id db.likes existing.id }
        (.removed, incTargetLikes db1 tt i (-1))
      else
        (.updated reactionType,
          { db with likes := updateById Like.id db.likes existing.id (setLikeType reactionType) })
  | none =>
      match saveLikeDoc db
          { userId := some userId, targetId := some i,
            targetType := some tt, type := some reactionType } with
      | .ok (_, db1) => (.added reactionType, incTargetLikes db1 tt i 1)
      | .error _ => (.serverError, db)

/-- Failure of `POST /posts/:id/comments`: the 404 "Comment not found". -/
inductive CommentError where
  | notFound
deriving DecidableEq, Repr

/-- The commit phase of `POST /posts/:id/comments`, after the parent has been
resolved: persist the new comment, bump the post's `commentsCount`, bump the
resolved root's `replyCount` when present, and re-fetch the stored comment
for the response. -/
def newCommentDoc (db : DB) (userId postId : Nat) (content : String)
    (rootCommentId replyToUserId : Option Nat) : Comment :=
  { id := freshId db, postId := postId, userId := userId,
    content := content, parentComment := rootCommentId,
    replyToUser := replyToUserId, likesCount := 0, replyCount := 0,
    createdAt := db.now }

def commitComment (db : DB) (userId postId : Nat) (content : String)
    (rootCommentId replyToUserId : Option Nat) : Comment × DB :=
  let c : Comment := newCommentDoc db userId postId content rootCommentId replyToUserId
  let db1 := { db with comments := c :: db.comments, now := db.now + 1 }
  let db2 := { db1 with posts := updateById Post.id db1.posts postId bumpPostComments }
  let db3 :=
    match rootCommentId with
    | some r =>
        { db2 with comments := updateById Comment.id db2.comments r bumpReplyCount }
    | none => db2
  ((db3.comments.find? (fun x => x.id == c.id)).getD c, db3)

/-- Route `POST /posts/:id/comments`: resolve the optional `parentId` to a root
comment (flattening replies-to-replies onto the original root and tagging the
immediate author), then commit. -/
def addComment (db : DB) (userId postId : Nat) (content : String)
    (parentId : Option Nat) : Except CommentError (Comment × DB) :=
  let resolved : Except CommentError (Option Nat × Option Nat) :=
    match parentId with
    | none => .ok (none, none)
    | some pid =>
        match db.comments.find? (fun c => c.id == pid) with
        | none => .error .notFound
        | some parent =>
            match parent.parentComment with
            | some r => .ok (some r, some parent.userId)
            | none => .ok (some pid, some parent.userId)
  match resolved with
  | .error e => .error e
  | .ok (rootCommentId, replyToUserId) =>
      .ok (commitComment db userId postId content rootCommentId replyToUserId)

/-- Response of the legacy `PUT /posts/:id/like` endpoint. -/
inductive LegacyLikeResult where
  | liked
  | unliked
  | serverError
deriving DecidableEq, Repr

/-- The value of the `postId` path on a persisted `Like` document: the strict
`LikeSchema` defines no such path, so no stored document carries one and a
filter on it matches nothing. -/
def likeStoredPostId (_ : Like) : Option Nat := none

/-- The document built by the legacy route's `new Like({ userId, postId })`:
the strict schema drops the undeclared `postId` path, leaving only `userId`
set; the required `targetId` and `targetType` paths stay unset. -/
def legacyLikeDoc (userId : Nat) : LikeDoc :=
  { userId := some userId, targetId := none, targetType := none, type := none }

/-- Route `PUT /posts/:id/like` (the legacy like/unlike endpoint):
`Like.findOne({ userId, postId })` filters on the undeclared `postId` path,
then either deletes the found like and decrements, or saves
`new Like({ userId, postId })` and increments; a save failure is caught and
answered as `serverError` with no counter update. -/
def legacyLike (db : DB) (userId postId : Nat) : LegacyLikeResult × DB :=
  match db.likes.find?
      (fun l => l.userId == userId && likeStoredPostId l == some postId) with
  | some existing =>
      let db1 := { db with likes := removeById Like.id db.likes existing.id }
      (.unliked, incPostLikes db1 postId (-1))
  | none =>
      match saveLikeDoc db (legacyLikeDoc userId) with
      | .ok (_, db1) => (.liked, incPostLikes db1 postId 1)
      | .error _ => (.serverError, db)

/-- Route `POST /posts`: `privacy: req.body.privacy || "public"`, where `none`
models an absent (or empty, hence falsy) body field; the schema's
`enum: ["public", "private"]` rejects any other value at save time. -/
def createPost (db : DB) (userId : Nat) (content : String)
    (privacy : Option String) : Except Unit (Post × DB) :=
  let pv := privacy.getD "public"
  if pv == "public" || pv == "private" then
    let p : Post :=
      { id := freshId db, userId := userId, content := content, image := "",
        likesCount := 0, commentsCount := 0, privacy := some pv,
        createdAt := db.now }
    .ok (p, { db with posts := p :: db.posts, now := db.now + 1 })
  else
    .error ()

/-- Model of `[...new Set(xs)]` in JavaScript: deduplicate keeping the first
occurrence of each element, in iteration order. -/
def jsSetToList (xs : List String) : List String :=
  xs.foldl (fun acc t => if acc.any (fun x => x == t) then acc else acc ++ [t]) []

/-- First-occurrence deduplication, written as the specification describes
it: keep each distinct value at the position of its first occurrence. -/
def distinctInOrder : List String → List String
  | [] => []
  | t :: ts => t :: distinctInOrder (ts.filter (fun x => !(x == t)))
termination_by l => l.length
decreasing_by
  exact Nat.lt_succ_of_le (List.length_filter_le _ _)

/-- The `topReactions` computation of the comment read routes: fetch the 5
most recent reactions on the comment, extract their types, take the distinct
values via a JS `Set`, and slice off the first 2. -/
def commentTopReactions (db : DB) (cid : Nat) : List String :=
  let recentTypes :=
    ((sortBy likeNewestFirst
        (db.likes.filter (fun l => l.targetId == cid && l.targetType == TargetType.comment))).take 5).map
      Like.type
  (jsSetToList recentTypes).take 2

/-- The specification's
`topReactionTypes(targetId, targetType, sampleSize, maxDistinct)`: sample the
`sampleSize` most recent reactions (newest first) and return up to
`maxDistinct` distinct types preserving the recency order of first
occurrence. -/
def topReactionTypes (db : DB) (targetId : Nat) (tt : TargetType)
    (sampleSize maxDistinct : Nat) : List String :=
  let sample :=
    ((sortBy likeNewestFirst
        (db.likes.filter (fun l => l.targetId == targetId && l.targetType == tt))).take sampleSize).map
      Like.type
  (distinctInOrder sample).take maxDistinct

/-- A comment as returned by the read routes: the raw document spread
together with the viewer-specific and social-proof decoration. -/
structure DecoratedComment where
  comment : Comment
  isLiked : Bool
  userReaction : Option String
  topReactions : List String
deriving DecidableEq, Repr

/-- The per-comment decoration of `GET /comments/:id/replies` and
`GET /posts/:id/comments`. -/
def decorateComment (db : DB) (viewerId : Nat) (c : Comment) : DecoratedComment :=
  let myLike := db.likes.find?
    (fun l => l.userId == viewerId && l.targetId == c.id && l.targetType == TargetType.comment)
  { comment := c, isLiked := myLike.isSome, userReaction := myLike.map Like.type,
    topReactions := commentTopReactions db c.id }

/-- Route `GET /comments/:id/replies`: all comments whose `parentComment` is the
given root, oldest first, decorated. -/
def listReplies (db : DB) (viewerId rootId : Nat) : List DecoratedComment :=
  (sortBy commentOldestFirst
      (db.comments.filter (fun c => c.parentComment == some rootId))).map
    (decorateComment db viewerId)

/-- Route `GET /posts/:id/comments`: root comments of the post, newest first, with
offset pagination (`skip` then `limit(10)`), decorated. -/
def listRootComments (db : DB) (viewerId postId skip : Nat) : List DecoratedComment :=
  (((sortBy commentNewestFirst
        (db.comments.filter (fun c => c.postId == postId && c.parentComment == none))).drop skip).take 10).map
    (decorateComment db viewerId)

/-- A post as returned by the feed route. -/
structure DecoratedPost where
  post : Post
  isLiked : Bool
  userReaction : Option String
  recentReactors : List Nat
deriving DecidableEq, Repr

/-- The per-post decoration of `GET /posts`. -/
def decoratePost (db : DB) (viewerId : Nat) (p : Post) : DecoratedPost :=
  let myLike := db.likes.find?
    (fun l => l.userId == viewerId && l.targetId == p.id && l.targetType == TargetType.post)
  let recent :=
    (sortBy likeNewestFirst
        (db.likes.filter (fun l => l.targetId == p.id && l.targetType == TargetType.post))).take 3
  { post := p, isLiked := myLike.isSome, userReaction := myLike.map Like.type,
    recentReactors := recent.map Like.userId }

/-- The feed visibility filter of `GET /posts`:
`$or: [{privacy: "public"}, {privacy: {$exists: false}}, {userId: viewer}]`. -/
def feedVisible (viewerId : Nat) (p : Post) : Bool :=
  p.privacy == some "public" || p.privacy == none || p.userId == viewerId

/-- Route `GET /posts`: the visible posts, newest first, decorated. -/
def listFeed (db : DB) (viewerId : Nat) : List DecoratedPost :=
  (sortBy postNewestFirst (db.posts.filter (feedVisible viewerId))).map
    (decoratePost db viewerId)

/-- One exposed mutating request. -/
inductive Op where
  | reactOp (userId : Nat) (tt : TargetType) (i : Nat) (reactionType : String)
  | addCommentOp (userId postId : Nat) (content : String) (parentId : Option Nat)
  | legacyLikeOp (userId postId : Nat)
  | createPostOp (userId : Nat) (content : String) (privacy : Option String)

/-- Execute one request against the store; rejected requests leave the store
unchanged. -/
def applyOp (db : DB) : Op → DB
  | .reactOp u tt i rt => (react db u tt i rt).2
  | .addCommentOp u p c pid =>
      match addComment db u p c pid with
      | .ok (_, db') => db'
      | .error _ => db
  | .legacyLikeOp u p => (legacyLike db u p).2
  | .createPostOp u c pv =>
      match createPost db u c pv with
      | .ok (_, db') => db'
      | .error _ => db

/-- Execute a sequence of requests. -/
def runOps (db : DB) (ops : List Op) : DB := ops.foldl applyOp db

/-- Execute a sequence of reaction requests
`(userId, targetType, targetId, reactionType)`. -/
def runReacts (db : DB) (rs : List (Nat × TargetType × Nat × String)) : DB :=
  rs.foldl (fun db r => (react db r.1 r.2.1 r.2.2.1 r.2.2.2).2) db

/-! Derived observations and invariants used to state the claims. -/

/-- Model of `Comment.findById cid`. -/
def findComment (db : DB) (cid : Nat) : Option Comment :=
  db.comments.find? (fun c => c.id == cid)

/-- Model of `Post.findById pid`. -/
def findPost (db : DB) (pid : Nat) : Option Post :=
  db.posts.find? (fun p => p.id == pid)

/-- The `replyCount` stored on the comment with the given id. -/
def commentReplyCount (db : DB) (cid : Nat) : Option Int :=
  (findComment db cid).map Comment.replyCount

/-- The `commentsCount` stored on the post with the given id. -/
def postCommentsCount (db : DB) (pid : Nat) : Option Int :=
  (findPost db pid).map Post.commentsCount

/-- The `likesCount` stored on the reaction target. -/
def targetLikesCount (db : DB) (tt : TargetType) (i : Nat) : Option Int :=
  match tt with
  | .post => (findPost db i).map Post.likesCount
  | .comment => (findComment db i).map Comment.likesCount

/-- No reaction record exists for the user/target pair. -/
def noPair (db : DB) (u t : Nat) : Bool :=
  db.likes.all (fun l => !(likeKey u t l))

/-- All reaction records for the user/target pair. -/
def pairLikes (db : DB) (u t : Nat) : List Like :=
  db.likes.filter (likeKey u t)

/-- The reaction ledger projected to its unique-index key `(userId, targetId)`. -/
def likeKeys (db : DB) : List (Nat × Nat) :=
  db.likes.map (fun l => (l.userId, l.targetId))

/-- Invariant I2: at most one reaction record per `(userId, targetId)` pair. -/
def atMostOnePerPair (db : DB) : Prop := (likeKeys db).Nodup

/-- The records of the reaction ledger, identified by document id and key. -/
def likeRecords (db : DB) : List (Nat × Nat × Nat) :=
  db.likes.map (fun l => (l.id, l.userId, l.targetId))

/-- Invariant I1 over a comment collection: every non-null `parentComment`
references a comment of the collection whose own `parentComment` is null. -/
def rootRefOk (cs : List Comment) : Option Nat → Bool
  | none => true
  | some r => cs.any (fun p => p.id == r && p.parentComment == none)

/-- Invariant I1 (flattening) over the store. -/
def flatInvL (cs : List Comment) : Bool :=
  cs.all (fun c => rootRefOk cs c.parentComment)

/-- Invariant I1 (flattening) over the store. -/
def flatInv (db : DB) : Bool := flatInvL db.comments

/-- A ledger entry counting toward post `pid`'s `likesCount`. -/
def tallyPred (pid : Nat) (l : Like) : Bool :=
  l.targetType == TargetType.post && l.targetId == pid

/-- The number of live ledger entries whose target is the given post. -/
def postTally (likes : List Like) (pid : Nat) : Int :=
  ((likes.filter (tallyPred pid)).length : Int)

/-- Counter soundness carried through C9: every post's `likesCount` bounds
the number of live reactions on it, and `commentsCount` is non-negative. -/
def countersInv (db : DB) : Prop :=
  ∀ p ∈ db.posts, postTally db.likes p.id ≤ p.likesCount ∧ 0 ≤ p.commentsCount

/-- Document ids are unique per collection (ObjectId uniqueness). -/
def idsWF (db : DB) : Prop :=
  (db.posts.map Post.id).Nodup ∧ (db.comments.map Comment.id).Nodup ∧
    (db.likes.map Like.id).Nodup

/-- Whether `cid` denotes the root comment itself or one of its replies. -/
def isReplyTarget (db : DB) (rootId cid : Nat) : Bool :=
  cid == rootId ||
    db.comments.any (fun c => c.id == cid && c.parentComment == some rootId)

/-- A sequence of `k` successful `addComment` calls, each replying to the
root comment `rootId` or to any previously existing reply of it, all against
post `postId`. -/
inductive ReplySeq (postId rootId : Nat) : DB → Nat → DB → Prop where
  | nil : ∀ db, ReplySeq postId rootId db 0 db
  | snoc : ∀ db k db' u content pid c db'',
      ReplySeq postId rootId db k db' →
      isReplyTarget db' rootId pid = true →
      addComment db' u postId content (some pid) = .ok (c, db'') →
      ReplySeq postId rootId db (k + 1) db''

/-- The reaction freshly inserted by the `added` branch of `react`. -/
def newReaction (db : DB) (u t : Nat) (tt : TargetType) (rt : String) : Like :=
  { id := freshId db, userId := u, targetId := t, targetType := tt,
    type := rt, createdAt := db.now }

/-- Run the three-step flattening scenario of the specification from the
empty store: root comment by user 1, reply to it by user 2, reply to that
reply by user 3, all on post 50. -/
def flattenScenario : Option (Comment × Comment × Comment) :=
  match addComment emptyDB 1 50 "root" none with
  | .error _ => none
  | .ok (r, db1) =>
      match addComment db1 2 50 "reply to root" (some r.id) with
      | .error _ => none
      | .ok (a, db2) =>
          match addComment db2 3 50 "reply to reply" (some a.id) with
          | .error _ => none
          | .ok (b, _) => some (r, a, b)

/-! Concrete fixtures used to instantiate the theorems below. -/

/-- Fixture: a store whose only reaction is user 1's "Like" on comment 2. -/
def conflictDB : DB :=
  { posts := [], comments := [],
    likes := [{ id := 0, userId := 1, targetId := 2, targetType := .comment,
                type := "Like", createdAt := 0 }],
    now := 1 }

/-- Fixture: a store whose only reaction is user 1's "Like" on post 2. -/
def oneLikeDB : DB :=
  { posts := [], comments := [],
    likes := [{ id := 0, userId := 1, targetId := 2, targetType := .post,
                type := "Like", createdAt := 0 }],
    now := 1 }

/-- Fixture: a private post by user 5. -/
def privPost : Post :=
  { id := 1, userId := 5, content := "mine", image := "", likesCount := 0,
    commentsCount := 0, privacy := some "private", createdAt := 0 }

/-- Fixture: a public post by user 5. -/
def pubPost : Post :=
  { id := 2, userId := 5, content := "hello", image := "", likesCount := 0,
    commentsCount := 0, privacy := some "public", createdAt := 1 }

/-- Fixture: a store holding one private and one public post. -/
def feedDB : DB := { posts := [privPost, pubPost], comments := [], likes := [], now := 2 }

/-- Fixture: a root comment on post 10. -/
def rootComment : Comment :=
  { id := 1, postId := 10, userId := 5, content := "r", parentComment := none,
    replyToUser := none, likesCount := 0, replyCount := 1, createdAt := 0 }

/-- Fixture: a reply to `rootComment`. -/
def replyComment : Comment :=
  { id := 2, postId := 10, userId := 6, content := "a", parentComment := some 1,
    replyToUser := some 5, likesCount := 1, replyCount := 0, createdAt := 1 }

/-- Fixture: a store with a root comment, one reply, and a reaction on the
reply. -/
def repliesDB : DB :=
  { posts := [], comments := [rootComment, replyComment],
    likes := [{ id := 3, userId := 7, targetId := 2, targetType := .comment,
                type := "Haha", createdAt := 2 }],
    now := 3 }

/-- Fixture: the root comment created by the first step of the flattening
scenario (`addComment emptyDB 1 50 "root" none`). -/
def scnRoot : Comment :=
  { id := 1, postId := 50, userId := 1, content := "root", parentComment := none,
    replyToUser := none, likesCount := 0, replyCount := 0, createdAt := 0 }

/-- Fixture: the store after creating `scnRoot` in the empty store. -/
def scnDB1 : DB := { posts := [], comments := [scnRoot], likes := [], now := 1 }

/-- Fixture: the reply created against `scnRoot` by user 2. -/
def scnReply : Comment :=
  { id := 2, postId := 50, userId := 2, content := "a", parentComment := some 1,
    replyToUser := some 1, likesCount := 0, replyCount := 0, createdAt := 1 }

/-- Fixture: the store after the reply, with the root's `replyCount` bumped. -/
def scnDB2 : DB :=
  { posts := [],
    comments := [scnReply,
      { id := 1, postId := 50, userId := 1, content := "root", parentComment := none,
        replyToUser := none, likesCount := 0, replyCount := 1, createdAt := 0 }],
    likes := [], now := 2 }

/-- Fixture: the post created by `createPostOp 1 "x" none` in the empty store. -/
def wPost : Post :=
  { id := 1, userId := 1, content := "x", image := "", likesCount := 0,
    commentsCount := 0, privacy := some "public", createdAt := 0 }

/-! Helper lemmas about the storage-layer primitives. -/

theorem le_foldr_max {l : List Nat} {x : Nat} (h : x ∈ l) : x ≤ l.foldr max 0 := by
  induction l with
  | nil => cases h
  | cons a as ih =>
      rcases List.mem_cons.1 h with rfl | h
      · exact Nat.le_max_left _ _
      · exact Nat.le_trans (ih h) (Nat.le_max_right _ _)

theorem ne_freshId_of_mem_allIds {db : DB} {x : Nat} (h : x ∈ allIds db) :
    x ≠ freshId db := by
  have := le_foldr_max h
  unfold freshId
  omega

theorem post_id_ne_freshId {db : DB} {p : Post} (h : p ∈ db.posts) :
    p.id ≠ freshId db := by
  refine ne_freshId_of_mem_allIds ?_
  unfold allIds
  simp only [List.mem_append, List.mem_map]
  exact Or.inl (Or.inl (Or.inl ⟨p, h, rfl⟩))

theorem comment_id_ne_freshId {db : DB} {c : Comment} (h : c ∈ db.comments) :
    c.id ≠ freshId db := by
  refine ne_freshId_of_mem_allIds ?_
  unfold allIds
  simp only [List.mem_append, List.mem_map]
  exact Or.inl (Or.inl (Or.inr ⟨c, h, rfl⟩))

theorem like_id_ne_freshId {db : DB} {l : Like} (h : l ∈ db.likes) :
    l.id ≠ freshId db := by
  refine ne_freshId_of_mem_allIds ?_
  unfold allIds
  simp only [List.mem_append, List.mem_map]
  exact Or.inl (Or.inr ⟨l, h, rfl⟩)

theorem like_targetId_ne_freshId {db : DB} {l : Like} (h : l ∈ db.likes) :
    l.targetId ≠ freshId db := by
  refine ne_freshId_of_mem_allIds ?_
  unfold allIds
  simp only [List.mem_append, List.mem_map]
  exact Or.inr ⟨l, h, rfl⟩

section UpdateById

variable {α : Type} (getId : α → Nat) (f g : α → α) {l : List α} {i j : Nat}

theorem mem_updateById {a : α} (h : a ∈ updateById getId l i f) :
    a ∈ l ∨ ∃ b ∈ l, getId b = i ∧ a = f b := by
  induction l with
  | nil => cases h
  | cons x xs ih =>
      by_cases hx : getId x = i
      · simp only [updateById, if_pos hx] at h
        rcases List.mem_cons.1 h with rfl | h
        · exact Or.inr ⟨x, List.mem_cons_self x xs, hx, rfl⟩
        · exact Or.inl (List.mem_cons_of_mem _ h)
      · simp only [updateById, if_neg hx] at h
        rcases List.mem_cons.1 h with rfl | h
        · exact Or.inl (List.mem_cons_self _ _)
        · rcases ih h with h | ⟨b, hb, hbi, rfl⟩
          · exact Or.inl (List.mem_cons_of_mem _ h)
          · exact Or.inr ⟨b, List.mem_cons_of_mem _ hb, hbi, rfl⟩

theorem map_updateById {β : Type} (gmap : α → β) (hg : ∀ a, gmap (f a) = gmap a) :
    (updateById getId l i f).map gmap = l.map gmap := by
  induction l with
  | nil => rfl
  | cons x xs ih =>
      by_cases hx : getId x = i
      · simp [updateById, if_pos hx, hg]
      · simp [updateById, if_neg hx, ih]

theorem updateById_of_find?_none
    (h : l.find? (fun a => getId a == i) = none) :
    updateById getId l i f = l := by
  induction l with
  | nil => rfl
  | cons x xs ih =>
      rw [List.find?_cons] at h
      by_cases hx : getId x = i
      · simp [hx] at h
      · have hx' : (getId x == i) = false := by simpa using hx
        rw [hx'] at h
        simp [updateById, if_neg hx, ih h]

theorem find?_updateById_self {x : α}
    (hf : ∀ a, getId (f a) = getId a)
    (h : l.find? (fun a => getId a == i) = some x) :
    (updateById getId l i f).find? (fun a => getId a == i) = some (f x) := by
  induction l with
  | nil => simp at h
  | cons a as ih =>
      rw [List.find?_cons] at h
      by_cases ha : getId a = i
      · have ha' : (getId a == i) = true := by simpa using ha
        rw [ha'] at h
        simp only [cond_true, Option.some.injEq] at h
        subst h
        have hfa : (getId (f a) == i) = true := by simp [hf, ha]
        simp [updateById, if_pos ha, List.find?_cons, hfa]
      · have ha' : (getId a == i) = false := by simpa using ha
        rw [ha'] at h
        simp only [cond_false] at h
        simp [updateById, if_neg ha, List.find?_cons, ha', ih h]

theorem find?_updateById_of_ne
    (hf : ∀ a, getId (f a) = getId a) (hij : j ≠ i) :
    (updateById getId l i f).find? (fun a => getId a == j) =
      l.find? (fun a => getId a == j) := by
  induction l with
  | nil => rfl
  | cons a as ih =>
      by_cases ha : getId a = i
      · have haj : (getId a == j) = false := by
          simp only [beq_eq_false_iff_ne, ne_eq]
          omega
        have hfaj : (getId (f a) == j) = false := by
          rw [hf]; exact haj
        simp [updateById, if_pos ha, List.find?_cons, haj, hfaj]
      · simp [updateById, if_neg ha, List.find?_cons, ih]

theorem updateById_updateById (hf : ∀ a, getId (f a) = getId a) :
    updateById getId (updateById getId l i f) i g =
      updateById getId l i (fun a => g (f a)) := by
  induction l with
  | nil => rfl
  | cons a as ih =>
      by_cases ha : getId a = i
      · have : getId (f a) = i := by rw [hf]; exact ha
        simp [updateById, if_pos ha, this]
      · simp [updateById, if_neg ha, ih]

theorem updateById_congr_id (h : ∀ a, f a = a) : updateById getId l i f = l := by
  induction l with
  | nil => rfl
  | cons a as ih =>
      by_cases ha : getId a = i
      · simp [updateById, if_pos ha, h]
      · simp [updateById, if_neg ha, ih]

theorem all_updateById (p : α → Bool) (hp : ∀ a, p (f a) = p a) :
    (updateById getId l i f).all p = l.all p := by
  induction l with
  | nil => rfl
  | cons a as ih =>
      by_cases ha : getId a = i
      · simp [updateById, if_pos ha, hp]
      · simp [updateById, if_neg ha, ih]

theorem any_updateById (p : α → Bool) (hp : ∀ a, p (f a) = p a) :
    (updateById getId l i f).any p = l.any p := by
  induction l with
  | nil => rfl
  | cons a as ih =>
      by_cases ha : getId a = i
      · simp [updateById, if_pos ha, hp]
      · simp [updateById, if_neg ha, ih]

theorem updateById_eq_map_of_nodup (hn : (l.map getId).Nodup) :
    updateById getId l i f = l.map (fun a => if getId a = i then f a else a) := by
  induction l with
  | nil => rfl
  | cons a as ih =>
      simp only [List.map_cons, List.nodup_cons] at hn
      by_cases ha : getId a = i
      · have hnotin : ∀ b ∈ as, getId b ≠ i := by
          intro b hb hbi
          apply hn.1
          rw [ha, ← hbi]
          exact List.mem_map_of_mem getId hb
        have has : as.map (fun b => if getId b = i then f b else b) = as := by
          conv_rhs => rw [← List.map_id as]
          apply List.map_congr_left
          intro b hb
          simp [hnotin b hb]
        simp [updateById, if_pos ha, ha, has]
      · simp [updateById, if_neg ha, ha, ih hn.2]

end UpdateById

section RemoveById

variable {α : Type} {getId : α → Nat} {l : List α} {i : Nat}

theorem removeById_sublist : List.Sublist (removeById getId l i) l := by
  induction l with
  | nil => simp [removeById]
  | cons a as ih =>
      by_cases ha : getId a = i
      · simp only [removeById, if_pos ha]
        exact List.sublist_cons_self a as
      · simp only [removeById, if_neg ha]
        exact ih.cons₂ a

theorem removeById_eq_filter_of_nodup (hn : (l.map getId).Nodup) :
    removeById getId l i = l.filter (fun a => !(getId a == i)) := by
  induction l with
  | nil => rfl
  | cons a as ih =>
      simp only [List.map_cons, List.nodup_cons] at hn
      by_cases ha : getId a = i
      · have : ∀ b ∈ as, getId b ≠ i := by
          intro b hb hbi
          exact hn.1 (by rw [ha, ← hbi]; exact List.mem_map_of_mem getId hb)
        have has : as.filter (fun a => !(getId a == i)) = as := by
          apply List.filter_eq_self.2
          intro b hb
          simp [this b hb]
        simp [removeById, if_pos ha, ha, has]
      · simp [removeById, if_neg ha, ha, ih hn.2]

end RemoveById

section SortBy

variable {α : Type} {before : α → α → Bool} {x a : α} {l : List α}

theorem mem_insertBy : a ∈ insertBy before x l ↔ a = x ∨ a ∈ l := by
  induction l with
  | nil => simp [insertBy]
  | cons q qs ih =>
      by_cases hq : before x q
      · simp [insertBy, hq]
      · simp only [insertBy, if_neg hq, List.mem_cons, ih]
        tauto

theorem mem_sortBy : a ∈ sortBy before l ↔ a ∈ l := by
  induction l with
  | nil => simp [sortBy]
  | cons q qs ih =>
      simp only [sortBy, mem_insertBy, List.mem_cons, ih]

theorem pairwise_insertBy
    (htot : ∀ a b, before a b = true ∨ before b a = true)
    (htrans : ∀ a b c, before a b = true → before b c = true → before a c = true)
    (h : l.Pairwise (fun a b => before a b = true)) :
    (insertBy before x l).Pairwise (fun a b => before a b = true) := by
  induction l with
  | nil => simp [insertBy]
  | cons q qs ih =>
      rcases List.pairwise_cons.1 h with ⟨hq, hqs⟩
      by_cases hxq : before x q
      · simp only [insertBy, if_pos hxq]
        refine List.pairwise_cons.2 ⟨?_, h⟩
        intro b hb
        rcases List.mem_cons.1 hb with rfl | hb
        · exact hxq
        · exact htrans _ _ _ hxq (hq b hb)
      · have hqx : before q x = true := by
          rcases htot x q with h1 | h1
          · exact absurd h1 hxq
          · exact h1
        simp only [insertBy, if_neg hxq]
        refine List.pairwise_cons.2 ⟨?_, ih hqs⟩
        intro b hb
        rcases mem_insertBy.1 hb with rfl | hb
        · exact hqx
        · exact hq b hb

theorem pairwise_sortBy
    (htot : ∀ a b, before a b = true ∨ before b a = true)
    (htrans : ∀ a b c, before a b = true → before b c = true → before a c = true) :
    ∀ l : List α, (sortBy before l).Pairwise (fun a b => before a b = true)
  | [] => by simp [sortBy]
  | q :: qs => by
      simpa [sortBy] using
        pairwise_insertBy htot htrans (pairwise_sortBy htot htrans qs)

end SortBy

/-! The JavaScript `Set` spread agrees with first-occurrence deduplication. -/

theorem jsSet_foldl (l acc : List String) :
    l.foldl (fun acc t => if acc.any (fun x => x == t) then acc else acc ++ [t]) acc =
      acc ++ distinctInOrder (l.filter (fun x => !(acc.any (fun y => y == x)))) := by
  induction l generalizing acc with
  | nil => simp [distinctInOrder]
  | cons t ts ih =>
      by_cases h : acc.any (fun x => x == t)
      · have hfilter : (t :: ts).filter (fun x => !(acc.any (fun y => y == x))) =
            ts.filter (fun x => !(acc.any (fun y => y == x))) := by
          simp only [List.filter_cons]
          have : (!(acc.any (fun y => y == t))) = false := by simp [h]
          simp [this]
        rw [hfilter, List.foldl_cons]
        simp only [if_pos h]
        exact ih acc
      · have hkeep : (!(acc.any (fun y => y == t))) = true := by simp [h]
        have hfilter : (t :: ts).filter (fun x => !(acc.any (fun y => y == x))) =
            t :: ts.filter (fun x => !(acc.any (fun y => y == x))) := by
          simp [List.filter_cons, hkeep]
        rw [hfilter, List.foldl_cons, if_neg h]
        rw [ih (acc ++ [t])]
        rw [distinctInOrder]
        have hpred : ts.filter (fun x => !((acc ++ [t]).any (fun y => y == x))) =
            (ts.filter (fun x => !(acc.any (fun y => y == x)))).filter (fun x => !(x == t)) := by
          rw [List.filter_filter]
          apply List.filter_congr
          intro x _
          simp only [List.any_append, List.any_cons, List.any_nil, Bool.or_false,
            Bool.not_or, Bool.and_comm]
          have : (t == x) = (x == t) := by
            by_cases hx : x = t
            · simp [hx]
            · have h1 : (t == x) = false := by simpa using fun hh => hx hh.symm
              have h2 : (x == t) = false := by simpa using hx
              rw [h1, h2]
          rw [this]
        rw [hpred]
        simp

theorem jsSetToList_eq_distinctInOrder (l : List String) :
    jsSetToList l = distinctInOrder l := by
  unfold jsSetToList
  rw [jsSet_foldl]
  simp

/-! Projection lemmas about the counter updates. -/

theorem incTargetLikes_likes (db : DB) (tt : TargetType) (i : Nat) (d : Int) :
    (incTargetLikes db tt i d).likes = db.likes := by
  cases tt <;> rfl

theorem incTargetLikes_now (db : DB) (tt : TargetType) (i : Nat) (d : Int) :
    (incTargetLikes db tt i d).now = db.now := by
  cases tt <;> rfl

theorem targetLikesCount_congr {db1 db2 : DB} (tt : TargetType) (i : Nat)
    (hp : db1.posts = db2.posts) (hc : db1.comments = db2.comments) :
    targetLikesCount db1 tt i = targetLikesCount db2 tt i := by
  cases tt <;> simp [targetLikesCount, findPost, findComment, hp, hc]

theorem bumpPostLikes_id (d : Int) : ∀ p, (bumpPostLikes d p).id = p.id := fun _ => rfl

theorem bumpPostComments_id : ∀ p, (bumpPostComments p).id = p.id := fun _ => rfl

theorem bumpCommentLikes_id (d : Int) : ∀ c, (bumpCommentLikes d c).id = c.id := fun _ => rfl

theorem bumpReplyCount_id : ∀ c, (bumpReplyCount c).id = c.id := fun _ => rfl

theorem setLikeType_id (rt : String) : ∀ l, (setLikeType rt l).id = l.id := fun _ => rfl

theorem findPost_incPostLikes (db : DB) (i : Nat) (d : Int) :
    findPost (incPostLikes db i d) i = (findPost db i).map (bumpPostLikes d) := by
  unfold findPost incPostLikes
  dsimp only
  cases hfind : db.posts.find? (fun p => p.id == i) with
  | none => rw [updateById_of_find?_none Post.id (bumpPostLikes d) hfind, hfind]; rfl
  | some p => rw [find?_updateById_self Post.id (bumpPostLikes d) (bumpPostLikes_id d) hfind]; rfl

theorem findComment_incCommentLikes (db : DB) (i : Nat) (d : Int) :
    findComment (incCommentLikes db i d) i = (findComment db i).map (bumpCommentLikes d) := by
  unfold findComment incCommentLikes
  dsimp only
  cases hfind : db.comments.find? (fun c => c.id == i) with
  | none => rw [updateById_of_find?_none Comment.id (bumpCommentLikes d) hfind, hfind]; rfl
  | some c => rw [find?_updateById_self Comment.id (bumpCommentLikes d) (bumpCommentLikes_id d) hfind]; rfl

theorem targetLikesCount_incTargetLikes (db : DB) (tt : TargetType) (i : Nat) (d : Int) :
    targetLikesCount (incTargetLikes db tt i d) tt i =
      (targetLikesCount db tt i).map (fun x => x + d) := by
  cases tt
  · show (findPost (incPostLikes db i d) i).map Post.likesCount =
      ((findPost db i).map Post.likesCount).map (fun x => x + d)
    rw [findPost_incPostLikes]
    cases findPost db i <;> rfl
  · show (findComment (incCommentLikes db i d) i).map Comment.likesCount =
      ((findComment db i).map Comment.likesCount).map (fun x => x + d)
    rw [findComment_incCommentLikes]
    cases findComment db i <;> rfl

/-! Branch lemmas for `react`. -/

theorem likeKeyTT_eq_false_of_likeKey_eq_false {u t : Nat} {tt : TargetType} {l : Like}
    (h : likeKey u t l = false) : likeKeyTT u t tt l = false := by
  unfold likeKey at h
  unfold likeKeyTT
  rcases Bool.and_eq_false_iff.1 h with h1 | h1 <;> simp [h1]

theorem react_add_of_noPair {db : DB} {u t : Nat} {tt : TargetType} {rt : String}
    (h : noPair db u t = true) :
    react db u tt t rt =
      (.added rt,
        incTargetLikes
          { db with likes := newReaction db u t tt rt :: db.likes, now := db.now + 1 }
          tt t 1) := by
  have hkey : ∀ l ∈ db.likes, likeKey u t l = false := by
    intro l hl
    have := List.all_eq_true.1 h l hl
    simpa using this
  have hfind : db.likes.find? (likeKeyTT u t tt) = none := by
    rw [List.find?_eq_none]
    intro l hl
    rw [likeKeyTT_eq_false_of_likeKey_eq_false (hkey l hl)]
    simp
  have hany : db.likes.any (likeKey u t) = false := by
    rw [List.any_eq_false]
    intro l hl
    rw [hkey l hl]
    simp
  unfold react
  rw [hfind]
  unfold saveLikeDoc
  simp only [hany, Bool.false_eq_true, if_false, if_neg]
  rfl

/-- Exhaustive case analysis of `react`: toggle-off, in-place type change,
duplicate-key conflict, or fresh insert. -/
theorem react_cases (db : DB) (u : Nat) (tt : TargetType) (t : Nat) (rt : String) :
    (∃ e, db.likes.find? (likeKeyTT u t tt) = some e ∧ (e.type == rt) = true ∧
      react db u tt t rt =
        (.removed, incTargetLikes
          { db with likes := removeById Like.id db.likes e.id } tt t (-1))) ∨
    (∃ e, db.likes.find? (likeKeyTT u t tt) = some e ∧ (e.type == rt) = false ∧
      react db u tt t rt =
        (.updated rt,
          { db with likes := updateById Like.id db.likes e.id (setLikeType rt) })) ∨
    (db.likes.any (likeKey u t) = true ∧ react db u tt t rt = (.serverError, db)) ∨
    (db.likes.any (likeKey u t) = false ∧
      react db u tt t rt =
        (.added rt, incTargetLikes
          { db with likes := newReaction db u t tt rt :: db.likes, now := db.now + 1 }
          tt t 1)) := by
  unfold react
  cases hfind : db.likes.find? (likeKeyTT u t tt) with
  | some e =>
      dsimp only
      cases htype : (e.type == rt) with
      | true =>
          exact Or.inl ⟨e, rfl, htype, rfl⟩
      | false =>
          exact Or.inr (Or.inl ⟨e, rfl, htype, rfl⟩)
  | none =>
      dsimp only
      unfold saveLikeDoc
      dsimp only
      cases hany : db.likes.any (likeKey u t) with
      | true =>
          exact Or.inr (Or.inr (Or.inl ⟨rfl, rfl⟩))
      | false =>
          exact Or.inr (Or.inr (Or.inr ⟨rfl, rfl⟩))

/-- The legacy route always fails: its `findOne` filters on the undeclared
`postId` path (matching nothing), and the document it then saves is missing
the required `targetId` and `targetType` paths. -/
theorem legacyLike_spec (db : DB) (u p : Nat) :
    legacyLike db u p = (.serverError, db) := by
  unfold legacyLike
  have hfind : db.likes.find?
      (fun l => l.userId == u && likeStoredPostId l == some p) = none := by
    rw [List.find?_eq_none]
    intro l _
    simp [likeStoredPostId]
  rw [hfind]
  rfl

/-! Claim theorems. -/

/-- C10: the legacy `PUT /posts/:id/like` endpoint can never create a
reaction ledger entry: the document built by `new Like({ userId, postId })`
is rejected by required-path validation (`targetId`, `targetType` missing),
the route answers with an error, and the store — in particular the post's
`likesCount` — is left unchanged. -/
theorem legacy_like_never_creates_entry (db : DB) (u p : Nat) :
    saveLikeDoc db (legacyLikeDoc u) = .error .validationError ∧
    legacyLike db u p = (.serverError, db) :=
  ⟨rfl, legacyLike_spec db u p⟩

/-- C5 (counterexample): a duplicate-insert uniqueness conflict on reaction
create is NOT resolved internally: in a store where user 1 already has a
reaction on target 2 (stored with `targetType` "Comment"), reacting to
target 2 with `targetType` "Post" reaches the create branch, the save hits
the unique `(userId, targetId)` index, and the route surfaces a hard
`serverError` instead of retrying as update/delete. -/
theorem react_conflict_not_resolved :
    conflictDB.likes.any (likeKey 1 2) = true ∧
    react conflictDB 1 .post 2 "Like" = (.serverError, conflictDB) := by
  constructor
  · decide
  · decide

/-- C5 (amended): when the create branch of `react` is reached (no existing
reaction matches the `(userId, targetId, targetType)` filter) but another
reaction for the same `(userId, targetId)` pair exists, the duplicate-key
failure is surfaced to the caller as an opaque server error and the store is
left unchanged; there is no internal retry. -/
theorem react_conflict_surfaces_error (db : DB) (u : Nat) (tt : TargetType)
    (t : Nat) (rt : String)
    (hfind : db.likes.find? (likeKeyTT u t tt) = none)
    (hconf : db.likes.any (likeKey u t) = true) :
    react db u tt t rt = (.serverError, db) := by
  unfold react
  rw [hfind]
  unfold saveLikeDoc
  simp [hconf]

/-- Witness for C5 (amended), at the concrete conflicting store. -/
theorem react_conflict_surfaces_error_witness :
    react conflictDB 1 .post 2 "Like" = (.serverError, conflictDB) :=
  react_conflict_surfaces_error conflictDB 1 .post 2 "Like" (by decide) (by decide)

/-- C3: starting from a store with no reaction record for `(u, t)`, reacting
with "Like" and then with "Like" again makes the second call return
`removed`, leaves zero reaction records for `(u, t)`, and restores the
target's `likesCount` to its starting value. -/
theorem react_toggle_law (db : DB) (u : Nat) (tt : TargetType) (t : Nat)
    (h : noPair db u t = true) :
    (react (react db u tt t "Like").2 u tt t "Like").1 = .removed ∧
    pairLikes (react (react db u tt t "Like").2 u tt t "Like").2 u t = [] ∧
    targetLikesCount (react (react db u tt t "Like").2 u tt t "Like").2 tt t =
      targetLikesCount db tt t := by
  have hkey : ∀ l ∈ db.likes, likeKey u t l = false := by
    intro l hl
    simpa using List.all_eq_true.1 h l hl
  have h1 := @react_add_of_noPair db u t tt "Like" h
  rw [h1]
  set nl := newReaction db u t tt "Like" with hnl
  set dbB : DB := { db with likes := nl :: db.likes, now := db.now + 1 } with hdbB
  set db1 := incTargetLikes dbB tt t 1 with hdb1
  have hlikes : db1.likes = nl :: db.likes := by
    rw [hdb1, incTargetLikes_likes, hdbB]
  have hfind : db1.likes.find? (likeKeyTT u t tt) = some nl := by
    rw [hlikes, List.find?_cons]
    have : likeKeyTT u t tt nl = true := by simp [likeKeyTT, hnl, newReaction]
    simp [this]
  have hrem : removeById Like.id db1.likes nl.id = db.likes := by
    rw [hlikes]
    unfold removeById
    simp
  have h2 : react db1 u tt t "Like" =
      (.removed, incTargetLikes { db1 with likes := db.likes } tt t (-1)) := by
    unfold react
    rw [hfind]
    dsimp only
    have htype : (nl.type == "Like") = true := by simp [hnl, newReaction]
    rw [if_pos htype, hrem]
  rw [h2]
  refine ⟨rfl, ?_, ?_⟩
  · show pairLikes (incTargetLikes { db1 with likes := db.likes } tt t (-1)) u t = []
    unfold pairLikes
    rw [incTargetLikes_likes]
    apply List.filter_eq_nil_iff.2
    intro l hl
    simp [hkey l hl]
  · show targetLikesCount (incTargetLikes { db1 with likes := db.likes } tt t (-1)) tt t =
      targetLikesCount db tt t
    rw [targetLikesCount_incTargetLikes]
    have e1 : targetLikesCount { db1 with likes := db.likes } tt t =
        targetLikesCount db1 tt t :=
      targetLikesCount_congr tt t rfl rfl
    have e2 : targetLikesCount db1 tt t =
        (targetLikesCount dbB tt t).map (fun x => x + 1) := by
      rw [hdb1, targetLikesCount_incTargetLikes]
    have e3 : targetLikesCount dbB tt t = targetLikesCount db tt t :=
      targetLikesCount_congr tt t rfl rfl
    rw [e1, e2, e3]
    cases targetLikesCount db tt t with
    | none => rfl
    | some x =>
        show some (x + 1 + -1) = some x
        congr 1
        omega

/-- C4: starting from a store with no reaction record for `(u, t)`, reacting
with "Like" and then with "Haha" makes the second call return `updated`,
leaves exactly one reaction record for `(u, t)` whose type is "Haha", and
does not change the target's `likesCount`. -/
theorem react_type_change_law (db : DB) (u : Nat) (tt : TargetType) (t : Nat)
    (h : noPair db u t = true) :
    (react (react db u tt t "Like").2 u tt t "Haha").1 = .updated "Haha" ∧
    (pairLikes (react (react db u tt t "Like").2 u tt t "Haha").2 u t).map Like.type = ["Haha"] ∧
    targetLikesCount (react (react db u tt t "Like").2 u tt t "Haha").2 tt t =
      targetLikesCount (react db u tt t "Like").2 tt t := by
  have hkey : ∀ l ∈ db.likes, likeKey u t l = false := by
    intro l hl
    simpa using List.all_eq_true.1 h l hl
  have h1 := @react_add_of_noPair db u t tt "Like" h
  rw [h1]
  set nl := newReaction db u t tt "Like" with hnl
  set dbB : DB := { db with likes := nl :: db.likes, now := db.now + 1 } with hdbB
  set db1 := incTargetLikes dbB tt t 1 with hdb1
  have hlikes : db1.likes = nl :: db.likes := by
    rw [hdb1, incTargetLikes_likes, hdbB]
  have hfind : db1.likes.find? (likeKeyTT u t tt) = some nl := by
    rw [hlikes, List.find?_cons]
    have : likeKeyTT u t tt nl = true := by simp [likeKeyTT, hnl, newReaction]
    simp [this]
  have hupd : updateById Like.id db1.likes nl.id (setLikeType "Haha") =
      setLikeType "Haha" nl :: db.likes := by
    rw [hlikes]
    unfold updateById
    simp
  have h2 : react db1 u tt t "Haha" =
      (.updated "Haha",
        { db1 with likes := setLikeType "Haha" nl :: db.likes }) := by
    unfold react
    rw [hfind]
    dsimp only
    have htype : (nl.type == "Haha") = false := by simp [hnl, newReaction]
    rw [if_neg (by simp [htype]), hupd]
  rw [h2]
  refine ⟨rfl, ?_, ?_⟩
  · show (pairLikes { db1 with likes := setLikeType "Haha" nl :: db.likes } u t).map Like.type = ["Haha"]
    unfold pairLikes
    have hkeyHead : likeKey u t (setLikeType "Haha" nl) = true := by
      simp [likeKey, setLikeType, hnl, newReaction]
    have hrest : db.likes.filter (likeKey u t) = [] := by
      apply List.filter_eq_nil_iff.2
      intro l hl
      simp [hkey l hl]
    show ((setLikeType "Haha" nl :: db.likes).filter (likeKey u t)).map Like.type = ["Haha"]
    rw [List.filter_cons_of_pos hkeyHead, hrest]
    rfl
  · exact targetLikesCount_congr tt t rfl rfl

/-- Witness for C3, at the empty store, user 1 reacting to post 2. -/
theorem react_toggle_law_witness :
    (react (react emptyDB 1 .post 2 "Like").2 1 .post 2 "Like").1 = .removed ∧
    pairLikes (react (react emptyDB 1 .post 2 "Like").2 1 .post 2 "Like").2 1 2 = [] ∧
    targetLikesCount (react (react emptyDB 1 .post 2 "Like").2 1 .post 2 "Like").2 .post 2 =
      targetLikesCount emptyDB .post 2 :=
  react_toggle_law emptyDB 1 .post 2 (by decide)

/-- Witness for C4, at the empty store, user 1 reacting to post 2. -/
theorem react_type_change_law_witness :
    (react (react emptyDB 1 .post 2 "Like").2 1 .post 2 "Haha").1 = .updated "Haha" ∧
    (pairLikes (react (react emptyDB 1 .post 2 "Like").2 1 .post 2 "Haha").2 1 2).map Like.type = ["Haha"] ∧
    targetLikesCount (react (react emptyDB 1 .post 2 "Like").2 1 .post 2 "Haha").2 .post 2 =
      targetLikesCount (react emptyDB 1 .post 2 "Like").2 .post 2 :=
  react_type_change_law emptyDB 1 .post 2 (by decide)

/-- C2: `react` preserves the at-most-one-reaction-per-`(userId, targetId)`
invariant (I2) — in particular, after any sequence of `react` calls from the
empty store, at most one reaction record exists per pair — and when it
reports `updated` it has mutated the existing record's type in place: the
ledger's records, identified by document id and index key, are exactly those
of the starting store. -/
theorem react_uniqueness_invariant :
    (∀ db u tt t rt, atMostOnePerPair db → atMostOnePerPair (react db u tt t rt).2) ∧
    (∀ db u tt t rt, (react db u tt t rt).1 = .updated rt →
      likeRecords (react db u tt t rt).2 = likeRecords db) ∧
    (∀ rs : List (Nat × TargetType × Nat × String),
      atMostOnePerPair (runReacts emptyDB rs)) := by
  have h1 : ∀ db u tt t rt, atMostOnePerPair db → atMostOnePerPair (react db u tt t rt).2 := by
    intro db u tt t rt hinv
    rcases react_cases db u tt t rt with ⟨e, _, _, heq⟩ | ⟨e, _, _, heq⟩ | ⟨_, heq⟩ | ⟨hany, heq⟩
    · rw [heq]
      unfold atMostOnePerPair likeKeys at hinv ⊢
      rw [incTargetLikes_likes]
      exact List.Nodup.sublist (List.Sublist.map _ removeById_sublist) hinv
    · rw [heq]
      unfold atMostOnePerPair likeKeys at hinv ⊢
      have : (updateById Like.id db.likes e.id
            (setLikeType rt)).map (fun l => (l.userId, l.targetId)) =
          db.likes.map (fun l => (l.userId, l.targetId)) :=
        map_updateById Like.id (setLikeType rt) _ (fun a => rfl)
      rw [this]
      exact hinv
    · rw [heq]
      exact hinv
    · rw [heq]
      unfold atMostOnePerPair likeKeys at hinv ⊢
      rw [incTargetLikes_likes]
      rw [List.map_cons, List.nodup_cons]
      refine ⟨?_, hinv⟩
      intro hmem
      rcases List.mem_map.1 hmem with ⟨l, hl, hpair⟩
      have := List.any_eq_false.mp hany l hl
      unfold likeKey at this
      have h1 : l.userId = u := congrArg Prod.fst hpair
      have h2 : l.targetId = t := congrArg Prod.snd hpair
      simp [h1, h2] at this
  refine ⟨h1, ?_, ?_⟩
  · intro db u tt t rt hres
    rcases react_cases db u tt t rt with ⟨e, _, _, heq⟩ | ⟨e, _, _, heq⟩ | ⟨_, heq⟩ | ⟨_, heq⟩
    · rw [heq] at hres
      simp at hres
    · rw [heq]
      unfold likeRecords
      exact map_updateById Like.id (setLikeType rt) _ (fun a => rfl)
    · rw [heq] at hres
      simp at hres
    · rw [heq] at hres
      simp at hres
  · intro rs
    have hgen : ∀ db, atMostOnePerPair db → atMostOnePerPair (runReacts db rs) := by
      induction rs with
      | nil => exact fun db h => h
      | cons r rs ih =>
          intro db h
          exact ih _ (h1 db r.1 r.2.1 r.2.2.1 r.2.2.2 h)
    refine hgen emptyDB ?_
    unfold atMostOnePerPair likeKeys emptyDB
    simp

/-- Witness for C2: both parts applied at a store holding one "Like" of user
1 on post 2, with a type-changing second reaction. -/
theorem react_uniqueness_invariant_witness :
    atMostOnePerPair (react oneLikeDB 1 .post 2 "Haha").2 ∧
    likeRecords (react oneLikeDB 1 .post 2 "Haha").2 = likeRecords oneLikeDB :=
  ⟨react_uniqueness_invariant.1 oneLikeDB 1 .post 2 "Haha"
     (by unfold atMostOnePerPair; decide),
   react_uniqueness_invariant.2.1 oneLikeDB 1 .post 2 "Haha" (by decide)⟩

/-- C8: feed visibility.  A private post is absent from the feed of any
viewer other than its author; a public, privacy-unset, or own post is
present; and the feed is sorted newest-first by creation time. -/
theorem feed_visibility (db : DB) (v : Nat) :
    (∀ P ∈ db.posts,
      ((P.privacy = some "private" ∧ P.userId ≠ v) →
        ∀ d ∈ listFeed db v, d.post ≠ P) ∧
      ((P.privacy = some "public" ∨ P.privacy = none ∨ P.userId = v) →
        ∃ d ∈ listFeed db v, d.post = P)) ∧
    (listFeed db v).Pairwise (fun a b => b.post.createdAt ≤ a.post.createdAt) := by
  constructor
  · intro P hP
    constructor
    · rintro ⟨hpriv, hauthor⟩ d hd hdP
      unfold listFeed at hd
      rcases List.mem_map.1 hd with ⟨c, hc, rfl⟩
      have hcP : c = P := hdP
      subst hcP
      have hmem := mem_sortBy.1 hc
      have hfv : feedVisible v c = true := (List.mem_filter.1 hmem).2
      unfold feedVisible at hfv
      rw [hpriv] at hfv
      have hne : ("private" : String) ≠ "public" := by decide
      simp [hne, hauthor] at hfv
    · intro hvis
      have hfv : feedVisible v P = true := by
        unfold feedVisible
        rcases hvis with h | h | h <;> simp [h]
      refine ⟨decoratePost db v P, ?_, rfl⟩
      unfold listFeed
      exact List.mem_map_of_mem _ (mem_sortBy.2 (List.mem_filter.2 ⟨hP, hfv⟩))
  · unfold listFeed
    rw [List.pairwise_map]
    have htot : ∀ a b : Post, postNewestFirst a b = true ∨ postNewestFirst b a = true := by
      intro a b
      unfold postNewestFirst
      simp only [decide_eq_true_eq]
      omega
    have htrans : ∀ a b c : Post, postNewestFirst a b = true →
        postNewestFirst b c = true → postNewestFirst a c = true := by
      intro a b c
      unfold postNewestFirst
      simp only [decide_eq_true_eq]
      omega
    refine (pairwise_sortBy htot htrans (db.posts.filter (feedVisible v))).imp ?_
    intro a b hab
    unfold postNewestFirst at hab
    simpa using hab

/-- Witness for C8: at the two-post fixture and viewer 7, the private post is
absent and the public post is present. -/
theorem feed_visibility_witness :
    (∀ d ∈ listFeed feedDB 7, d.post ≠ privPost) ∧
    (∃ d ∈ listFeed feedDB 7, d.post = pubPost) := by
  have h := feed_visibility feedDB 7
  exact ⟨(h.1 privPost (by decide)).1 ⟨by decide, by decide⟩,
         (h.1 pubPost (by decide)).2 (Or.inl (by decide))⟩

/-- The route's `Set`-based distinct-type computation agrees with the
specification's `topReactionTypes(·, ·, 5, 2)`. -/
theorem commentTopReactions_eq (db : DB) (cid : Nat) :
    commentTopReactions db cid = topReactionTypes db cid .comment 5 2 := by
  unfold commentTopReactions topReactionTypes
  dsimp only
  rw [jsSetToList_eq_distinctInOrder]

/-- C6: for every comment returned by the reply listing or root-comment
listing, the `topReactions` field equals the specification's
`topReactionTypes(commentId, Comment, sampleSize = 5, maxDistinct = 2)`:
the types of the 5 most recent reactions, deduplicated to at most 2 distinct
values in recency order of first occurrence. -/
theorem top_reactions_spec :
    (∀ db v rootId, ∀ d ∈ listReplies db v rootId,
      d.topReactions = topReactionTypes db d.comment.id .comment 5 2) ∧
    (∀ db v pid skip, ∀ d ∈ listRootComments db v pid skip,
      d.topReactions = topReactionTypes db d.comment.id .comment 5 2) := by
  constructor
  · intro db v rootId d hd
    unfold listReplies at hd
    rcases List.mem_map.1 hd with ⟨c, _, rfl⟩
    exact commentTopReactions_eq db c.id
  · intro db v pid skip d hd
    unfold listRootComments at hd
    rcases List.mem_map.1 hd with ⟨c, _, rfl⟩
    exact commentTopReactions_eq db c.id

/-- Witness for C6, at the reply fixture. -/
theorem top_reactions_spec_witness :
    (decorateComment repliesDB 9 replyComment).topReactions =
      topReactionTypes repliesDB
        (decorateComment repliesDB 9 replyComment).comment.id .comment 5 2 :=
  top_reactions_spec.1 repliesDB 9 1 (decorateComment repliesDB 9 replyComment)
    (by decide)

/-! Lemmas about the flattening invariant I1. -/

theorem all_congr_fun {α : Type} {p q : α → Bool} (l : List α)
    (h : ∀ a, p a = q a) : l.all p = l.all q := by
  induction l with
  | nil => rfl
  | cons a as ih => simp [List.all_cons, h, ih]

theorem rootRefOk_updateInc (cs : List Comment) (i : Nat) (o : Option Nat) :
    rootRefOk (updateById Comment.id cs i bumpReplyCount) o = rootRefOk cs o := by
  cases o with
  | none => rfl
  | some r =>
      show (updateById Comment.id cs i bumpReplyCount).any
          (fun p => p.id == r && p.parentComment == none) =
        cs.any (fun p => p.id == r && p.parentComment == none)
      exact any_updateById Comment.id bumpReplyCount _ (fun a => rfl)

theorem rootRefOk_mono {cs : List Comment} (c : Comment) {o : Option Nat}
    (h : rootRefOk cs o = true) : rootRefOk (c :: cs) o = true := by
  cases o with
  | none => rfl
  | some r =>
      simp only [rootRefOk] at h ⊢
      rw [List.any_cons, h]
      simp

theorem flatInvL_updateInc (cs : List Comment) (i : Nat) :
    flatInvL (updateById Comment.id cs i bumpReplyCount) = flatInvL cs := by
  unfold flatInvL
  rw [all_updateById Comment.id bumpReplyCount
      (fun c => rootRefOk (updateById Comment.id cs i bumpReplyCount) c.parentComment)
      (fun a => rfl)]
  exact all_congr_fun cs (fun a => rootRefOk_updateInc cs i a.parentComment)

/-- C1: invariant I1 (flattening).  Every successful `addComment` preserves
the property that each persisted comment's `parentComment` is null or
references a comment whose own `parentComment` is null; and in the concrete
root/reply/reply-to-reply scenario, the deepest comment B is stored with
`parentComment` equal to the root R and `replyToUser` equal to A's author. -/
theorem flattening_invariant :
    (∀ db u p cnt pid c db', addComment db u p cnt pid = .ok (c, db') →
      flatInv db = true → flatInv db' = true) ∧
    (match flattenScenario with
     | some (r, a, b) => b.parentComment == some r.id && b.replyToUser == some a.userId
     | none => false) = true := by
  constructor
  · intro db u p cnt pid c db' heq hinv
    unfold flatInv flatInvL at hinv
    unfold addComment at heq
    cases pid with
    | none =>
        dsimp only at heq
        injection heq with h
        injection h with hc hdb
        subst hdb
        unfold flatInv flatInvL
        apply List.all_eq_true.2
        intro c₀ hc₀
        rcases List.mem_cons.1 hc₀ with rfl | hc₀
        · rfl
        · exact rootRefOk_mono _ (List.all_eq_true.1 hinv c₀ hc₀)
    | some pidv =>
        dsimp only at heq
        cases hfind : db.comments.find? (fun x => x.id == pidv) with
        | none =>
            rw [hfind] at heq
            exact absurd heq (by simp)
        | some parent =>
            rw [hfind] at heq
            dsimp only at heq
            have hpmem : parent ∈ db.comments := List.mem_of_find?_eq_some hfind
            have hpid : parent.id = pidv := by
              have := List.find?_some hfind
              simpa using this
            cases hpp : parent.parentComment with
            | none =>
                rw [hpp] at heq
                dsimp only at heq
                injection heq with h
                injection h with hc hdb
                subst hdb
                unfold flatInv
                dsimp only
                rw [flatInvL_updateInc]
                unfold flatInvL
                apply List.all_eq_true.2
                intro c₀ hc₀
                rcases List.mem_cons.1 hc₀ with rfl | hc₀
                · show rootRefOk _ (some pidv) = true
                  simp only [rootRefOk]
                  apply List.any_eq_true.2
                  refine ⟨parent, List.mem_cons_of_mem _ hpmem, ?_⟩
                  simp [hpid, hpp]
                · exact rootRefOk_mono _ (List.all_eq_true.1 hinv c₀ hc₀)
            | some r =>
                rw [hpp] at heq
                dsimp only at heq
                injection heq with h
                injection h with hc hdb
                subst hdb
                unfold flatInv
                dsimp only
                rw [flatInvL_updateInc]
                unfold flatInvL
                apply List.all_eq_true.2
                intro c₀ hc₀
                rcases List.mem_cons.1 hc₀ with rfl | hc₀
                · show rootRefOk _ (some r) = true
                  refine rootRefOk_mono _ ?_
                  have hr := List.all_eq_true.1 hinv parent hpmem
                  rw [hpp] at hr
                  exact hr
                · exact rootRefOk_mono _ (List.all_eq_true.1 hinv c₀ hc₀)
  · decide

/-- Witness for C1: the preservation half applied to the creation of the
scenario's root comment in the empty store. -/
theorem flattening_invariant_witness : flatInv scnDB1 = true :=
  flattening_invariant.1 emptyDB 1 50 "root" none scnRoot scnDB1
    (by rfl) (by decide)

/-! Counting lemmas for the reaction tally of a post. -/

theorem filter_swap {α : Type} (p q : α → Bool) (l : List α) :
    (l.filter p).filter q = (l.filter q).filter p := by
  induction l with
  | nil => rfl
  | cons a as ih =>
      by_cases hp : p a <;> by_cases hq : q a <;>
        simp [List.filter_cons, hp, hq, ih]

theorem filter_out_id_noop {α : Type} (getId : α → Nat) {l : List α} {i : Nat}
    (h : ∀ a ∈ l, getId a ≠ i) : l.filter (fun a => !(getId a == i)) = l := by
  apply List.filter_eq_self.2
  intro a ha
  simpa using h a ha

theorem length_filter_out_id {α : Type} (getId : α → Nat) {l : List α} {e : α}
    (hn : (l.map getId).Nodup) (he : e ∈ l) :
    (l.filter (fun a => !(getId a == getId e))).length + 1 = l.length := by
  induction l with
  | nil => cases he
  | cons a as ih =>
      simp only [List.map_cons, List.nodup_cons] at hn
      by_cases hae : getId a = getId e
      · have hrest : ∀ b ∈ as, getId b ≠ getId e := by
          intro b hb hbe
          exact hn.1 (by rw [hae, ← hbe]; exact List.mem_map_of_mem getId hb)
        have hfa : (!(getId a == getId e)) = false := by simp [hae]
        rw [List.filter_cons, hfa]
        simp only [Bool.false_eq_true, if_false]
        rw [filter_out_id_noop getId hrest]
        rfl
      · have hfa : (!(getId a == getId e)) = true := by simp [hae]
        rw [List.filter_cons, hfa]
        have hea : e ∈ as := by
          rcases List.mem_cons.1 he with rfl | hmem
          · exact absurd rfl hae
          · exact hmem
        simp only [if_true, List.length_cons]
        rw [ih hn.2 hea]

theorem filter_length_updateById {α : Type} (getId : α → Nat) (f : α → α)
    (q : α → Bool) (l : List α) (i : Nat) (hq : ∀ a, q (f a) = q a) :
    ((updateById getId l i f).filter q).length = (l.filter q).length := by
  induction l with
  | nil => rfl
  | cons a as ih =>
      by_cases ha : getId a = i
      · simp only [updateById, if_pos ha, List.filter_cons, hq]
        cases hqa : q a <;> simp [hqa]
      · simp only [updateById, if_neg ha, List.filter_cons]
        cases hqa : q a <;> simp [hqa, ih]

theorem postTally_cons (nl : Like) (likes : List Like) (pid : Nat) :
    postTally (nl :: likes) pid =
      postTally likes pid + (if tallyPred pid nl = true then 1 else 0) := by
  unfold postTally
  rw [List.filter_cons]
  cases h : tallyPred pid nl with
  | true =>
      rw [if_pos rfl, List.length_cons]
      simp only [if_true]
      push_cast
      ring
  | false =>
      simp

theorem postTally_update_setType (likes : List Like) (i : Nat) (rt : String) (pid : Nat) :
    postTally (updateById Like.id likes i (setLikeType rt)) pid = postTally likes pid := by
  unfold postTally
  rw [filter_length_updateById Like.id (setLikeType rt) (tallyPred pid) likes i (fun a => rfl)]

theorem postTally_remove {likes : List Like} {e : Like}
    (hwl : (likes.map Like.id).Nodup) (he : e ∈ likes) (pid : Nat) :
    postTally (removeById Like.id likes e.id) pid =
      postTally likes pid - (if tallyPred pid e = true then 1 else 0) := by
  unfold postTally
  rw [removeById_eq_filter_of_nodup hwl, filter_swap]
  cases hm : tallyPred pid e with
  | true =>
      have hmem' : e ∈ likes.filter (tallyPred pid) := List.mem_filter.2 ⟨he, hm⟩
      have hsub : ((likes.filter (tallyPred pid)).map Like.id).Nodup :=
        List.Nodup.sublist (List.Sublist.map _ (List.filter_sublist _)) hwl
      have hlen := length_filter_out_id Like.id hsub hmem'
      rw [if_pos rfl]
      omega
  | false =>
      have hnone : ∀ a ∈ likes.filter (tallyPred pid), a.id ≠ e.id := by
        intro a ha hae
        have haL := (List.mem_filter.1 ha).1
        have haP := (List.mem_filter.1 ha).2
        have hae' : a = e := List.inj_on_of_nodup_map hwl haL he hae
        rw [hae', hm] at haP
        exact Bool.noConfusion haP
      rw [filter_out_id_noop Like.id hnone]
      simp

/-! Projection lemmas for the counter updates and the comment commit. -/

theorem incPostLikes_posts (db : DB) (pid : Nat) (d : Int) :
    (incPostLikes db pid d).posts = updateById Post.id db.posts pid (bumpPostLikes d) := rfl

theorem incPostLikes_likes (db : DB) (pid : Nat) (d : Int) :
    (incPostLikes db pid d).likes = db.likes := rfl

theorem incPostLikes_comments (db : DB) (pid : Nat) (d : Int) :
    (incPostLikes db pid d).comments = db.comments := rfl

theorem incCommentLikes_posts (db : DB) (cid : Nat) (d : Int) :
    (incCommentLikes db cid d).posts = db.posts := rfl

theorem incCommentLikes_likes (db : DB) (cid : Nat) (d : Int) :
    (incCommentLikes db cid d).likes = db.likes := rfl

theorem incCommentLikes_comments (db : DB) (cid : Nat) (d : Int) :
    (incCommentLikes db cid d).comments =
      updateById Comment.id db.comments cid (bumpCommentLikes d) := rfl

theorem commitComment_likes (db : DB) (u p : Nat) (cnt : String) (root rtu : Option Nat) :
    (commitComment db u p cnt root rtu).2.likes = db.likes := by
  cases root <;> rfl

theorem commitComment_posts (db : DB) (u p : Nat) (cnt : String) (root rtu : Option Nat) :
    (commitComment db u p cnt root rtu).2.posts =
      updateById Post.id db.posts p bumpPostComments := by
  cases root <;> rfl

theorem commitComment_comments_none (db : DB) (u p : Nat) (cnt : String) (rtu : Option Nat) :
    (commitComment db u p cnt none rtu).2.comments =
      newCommentDoc db u p cnt none rtu :: db.comments := rfl

theorem commitComment_comments_some (db : DB) (u p : Nat) (cnt : String) (r : Nat)
    (rtu : Option Nat) :
    (commitComment db u p cnt (some r) rtu).2.comments =
      updateById Comment.id (newCommentDoc db u p cnt (some r) rtu :: db.comments)
        r bumpReplyCount := rfl

/-- Exhaustive inversion of a successful `addComment`. -/
theorem addComment_ok_cases {db : DB} {u p : Nat} {cnt : String} {pid : Option Nat}
    {c : Comment} {db' : DB}
    (heq : addComment db u p cnt pid = .ok (c, db')) :
    (pid = none ∧ (c, db') = commitComment db u p cnt none none) ∨
    (∃ pidv parent, pid = some pidv ∧
      db.comments.find? (fun x => x.id == pidv) = some parent ∧
      ((parent.parentComment = none ∧
          (c, db') = commitComment db u p cnt (some pidv) (some parent.userId)) ∨
       (∃ r, parent.parentComment = some r ∧
          (c, db') = commitComment db u p cnt (some r) (some parent.userId)))) := by
  unfold addComment at heq
  cases pid with
  | none =>
      dsimp only at heq
      left
      refine ⟨rfl, ?_⟩
      injection heq with h
      exact h.symm
  | some pidv =>
      dsimp only at heq
      cases hfind : db.comments.find? (fun x => x.id == pidv) with
      | none =>
          rw [hfind] at heq
          exact absurd heq (by simp)
      | some parent =>
          rw [hfind] at heq
          dsimp only at heq
          right
          refine ⟨pidv, parent, rfl, hfind, ?_⟩
          cases hpp : parent.parentComment with
          | none =>
              rw [hpp] at heq
              dsimp only at heq
              left
              refine ⟨rfl, ?_⟩
              injection heq with h
              exact h.symm
          | some r =>
              rw [hpp] at heq
              dsimp only at heq
              right
              refine ⟨r, rfl, ?_⟩
              injection heq with h
              exact h.symm

/-! Preservation of well-formedness and counter soundness by each request. -/

theorem react_preserves (db : DB) (u : Nat) (tt : TargetType) (t : Nat) (rt : String)
    (hwf : idsWF db) (hinv : countersInv db) :
    idsWF (react db u tt t rt).2 ∧ countersInv (react db u tt t rt).2 := by
  obtain ⟨hwp, hwc, hwl⟩ := hwf
  rcases react_cases db u tt t rt with
    ⟨e, hfind, htype, heq⟩ | ⟨e, hfind, htype, heq⟩ | ⟨hany, heq⟩ | ⟨hany, heq⟩
  · -- toggle-off: delete the reaction, decrement the counter
    rw [heq]
    have hemem : e ∈ db.likes := List.mem_of_find?_eq_some hfind
    have hekey := List.find?_some hfind
    have heu : e.targetId = t ∧ e.targetType = tt := by
      unfold likeKeyTT at hekey
      simp only [Bool.and_eq_true, beq_iff_eq] at hekey
      exact ⟨hekey.1.2, hekey.2⟩
    have hrm := fun pid => postTally_remove hwl hemem pid
    have hlnodup : ((removeById Like.id db.likes e.id).map Like.id).Nodup :=
      List.Nodup.sublist (List.Sublist.map _ removeById_sublist) hwl
    cases tt with
    | post =>
        constructor
        · refine ⟨?_, hwc, hlnodup⟩
          show ((updateById Post.id db.posts t (bumpPostLikes (-1))).map Post.id).Nodup
          rw [map_updateById Post.id (bumpPostLikes (-1)) Post.id (bumpPostLikes_id (-1))]
          exact hwp
        · intro P' hP'
          have hP2 : P' ∈ updateById Post.id db.posts t (bumpPostLikes (-1)) := hP'
          rw [updateById_eq_map_of_nodup Post.id (bumpPostLikes (-1)) hwp] at hP2
          rcases List.mem_map.1 hP2 with ⟨P, hP, rfl⟩
          have hPinv := hinv P hP
          by_cases hPt : Post.id P = t
          · rw [if_pos hPt]
            show postTally (removeById Like.id db.likes e.id) P.id ≤ P.likesCount + (-1) ∧
              0 ≤ P.commentsCount
            have htally := hrm P.id
            have hm : tallyPred P.id e = true := by
              unfold tallyPred
              simp [heu.1, heu.2, hPt]
            rw [if_pos hm] at htally
            exact ⟨by omega, hPinv.2⟩
          · rw [if_neg hPt]
            show postTally (removeById Like.id db.likes e.id) P.id ≤ P.likesCount ∧
              0 ≤ P.commentsCount
            have htally := hrm P.id
            constructor
            · by_cases hm : tallyPred P.id e = true
              · rw [if_pos hm] at htally
                have := hPinv.1
                omega
              · rw [if_neg hm] at htally
                have := hPinv.1
                omega
            · exact hPinv.2
    | comment =>
        constructor
        · refine ⟨hwp, ?_, hlnodup⟩
          show ((updateById Comment.id db.comments t (bumpCommentLikes (-1))).map Comment.id).Nodup
          rw [map_updateById Comment.id (bumpCommentLikes (-1)) Comment.id (bumpCommentLikes_id (-1))]
          exact hwc
        · intro P' hP'
          have hP2 : P' ∈ db.posts := hP'
          have hPinv := hinv P' hP2
          show postTally (removeById Like.id db.likes e.id) P'.id ≤ P'.likesCount ∧
            0 ≤ P'.commentsCount
          have htally := hrm P'.id
          constructor
          · by_cases hm : tallyPred P'.id e = true
            · rw [if_pos hm] at htally
              have := hPinv.1
              omega
            · rw [if_neg hm] at htally
              have := hPinv.1
              omega
          · exact hPinv.2
  · -- in-place type change: ledger keys and counters untouched
    rw [heq]
    constructor
    · refine ⟨hwp, hwc, ?_⟩
      show ((updateById Like.id db.likes e.id (setLikeType rt)).map Like.id).Nodup
      rw [map_updateById Like.id (setLikeType rt) Like.id (setLikeType_id rt)]
      exact hwl
    · intro P' hP'
      have hP2 : P' ∈ db.posts := hP'
      have hPinv := hinv P' hP2
      show postTally (updateById Like.id db.likes e.id (setLikeType rt)) P'.id ≤ P'.likesCount ∧
        0 ≤ P'.commentsCount
      rw [postTally_update_setType]
      exact hPinv
  · -- duplicate-key conflict: store unchanged
    rw [heq]
    exact ⟨⟨hwp, hwc, hwl⟩, hinv⟩
  · -- fresh insert: add the reaction, increment the counter
    rw [heq]
    have hnl_fresh : freshId db ∉ db.likes.map Like.id := by
      intro hmem
      rcases List.mem_map.1 hmem with ⟨l, hl, hid⟩
      exact like_id_ne_freshId hl hid
    cases tt with
    | post =>
        constructor
        · refine ⟨?_, hwc, ?_⟩
          · show ((updateById Post.id db.posts t (bumpPostLikes 1)).map Post.id).Nodup
            rw [map_updateById Post.id (bumpPostLikes 1) Post.id (bumpPostLikes_id 1)]
            exact hwp
          · show ((newReaction db u t .post rt :: db.likes).map Like.id).Nodup
            rw [List.map_cons, List.nodup_cons]
            exact ⟨hnl_fresh, hwl⟩
        · intro P' hP'
          have hP2 : P' ∈ updateById Post.id db.posts t (bumpPostLikes 1) := hP'
          rw [updateById_eq_map_of_nodup Post.id (bumpPostLikes 1) hwp] at hP2
          rcases List.mem_map.1 hP2 with ⟨P, hP, rfl⟩
          have hPinv := hinv P hP
          have ht := postTally_cons (newReaction db u t .post rt) db.likes P.id
          by_cases hPt : Post.id P = t
          · rw [if_pos hPt]
            show postTally (newReaction db u t .post rt :: db.likes) P.id ≤ P.likesCount + 1 ∧
              0 ≤ P.commentsCount
            have hm : tallyPred P.id (newReaction db u t .post rt) = true := by
              unfold tallyPred newReaction
              simp [hPt]
            rw [if_pos hm] at ht
            have := hPinv.1
            exact ⟨by omega, hPinv.2⟩
          · rw [if_neg hPt]
            show postTally (newReaction db u t .post rt :: db.likes) P.id ≤ P.likesCount ∧
              0 ≤ P.commentsCount
            have hm : ¬(tallyPred P.id (newReaction db u t .post rt) = true) := by
              unfold tallyPred newReaction
              have hne : t ≠ P.id := fun h => hPt h.symm
              simp [hne]
            rw [if_neg hm] at ht
            have := hPinv.1
            exact ⟨by omega, hPinv.2⟩
    | comment =>
        constructor
        · refine ⟨hwp, ?_, ?_⟩
          · show ((updateById Comment.id db.comments t (bumpCommentLikes 1)).map Comment.id).Nodup
            rw [map_updateById Comment.id (bumpCommentLikes 1) Comment.id (bumpCommentLikes_id 1)]
            exact hwc
          · show ((newReaction db u t .comment rt :: db.likes).map Like.id).Nodup
            rw [List.map_cons, List.nodup_cons]
            exact ⟨hnl_fresh, hwl⟩
        · intro P' hP'
          have hP2 : P' ∈ db.posts := hP'
          have hPinv := hinv P' hP2
          show postTally (newReaction db u t .comment rt :: db.likes) P'.id ≤ P'.likesCount ∧
            0 ≤ P'.commentsCount
          have hm : ¬(tallyPred P'.id (newReaction db u t .comment rt) = true) := by
            unfold tallyPred newReaction
            have h1 : (TargetType.comment == TargetType.post) = false := rfl
            simp [h1]
          have ht := postTally_cons (newReaction db u t .comment rt) db.likes P'.id
          rw [if_neg hm] at ht
          have := hPinv.1
          exact ⟨by omega, hPinv.2⟩

theorem commit_preserves (db : DB) (u p : Nat) (cnt : String) (root rtu : Option Nat)
    (hwf : idsWF db) (hinv : countersInv db) :
    idsWF (commitComment db u p cnt root rtu).2 ∧
      countersInv (commitComment db u p cnt root rtu).2 := by
  obtain ⟨hwp, hwc, hwl⟩ := hwf
  have hfresh : freshId db ∉ db.comments.map Comment.id := by
    intro hmem
    rcases List.mem_map.1 hmem with ⟨x, hx, hid⟩
    exact comment_id_ne_freshId hx hid
  constructor
  · refine ⟨?_, ?_, ?_⟩
    · show (((commitComment db u p cnt root rtu).2.posts).map Post.id).Nodup
      rw [commitComment_posts,
        map_updateById Post.id bumpPostComments Post.id bumpPostComments_id]
      exact hwp
    · show (((commitComment db u p cnt root rtu).2.comments).map Comment.id).Nodup
      cases root with
      | none =>
          rw [commitComment_comments_none, List.map_cons, List.nodup_cons]
          exact ⟨hfresh, hwc⟩
      | some r =>
          rw [commitComment_comments_some,
            map_updateById Comment.id bumpReplyCount Comment.id bumpReplyCount_id,
            List.map_cons, List.nodup_cons]
          exact ⟨hfresh, hwc⟩
    · show (((commitComment db u p cnt root rtu).2.likes).map Like.id).Nodup
      rw [commitComment_likes]
      exact hwl
  · intro P' hP'
    rw [commitComment_posts] at hP'
    show postTally (commitComment db u p cnt root rtu).2.likes P'.id ≤ P'.likesCount ∧
      0 ≤ P'.commentsCount
    rw [commitComment_likes]
    rcases mem_updateById Post.id bumpPostComments hP' with hP | ⟨b, hb, hbid, rfl⟩
    · exact hinv P' hP
    · have hbinv := hinv b hb
      show postTally db.likes b.id ≤ b.likesCount ∧ 0 ≤ b.commentsCount + 1
      have := hbinv.1
      have := hbinv.2
      exact ⟨by omega, by omega⟩

theorem addComment_applyOp_preserves (db : DB) (u p : Nat) (cnt : String)
    (pid : Option Nat) (hwf : idsWF db) (hinv : countersInv db) :
    idsWF (applyOp db (.addCommentOp u p cnt pid)) ∧
      countersInv (applyOp db (.addCommentOp u p cnt pid)) := by
  unfold applyOp
  dsimp only
  cases haC : addComment db u p cnt pid with
  | error e => exact ⟨hwf, hinv⟩
  | ok res =>
      obtain ⟨c, db'⟩ := res
      dsimp only
      rcases addComment_ok_cases haC with ⟨_, hcommit⟩ |
        ⟨pidv, parent, _, _, ⟨_, hcommit⟩ | ⟨r, _, hcommit⟩⟩ <;>
        · have hdb : db' = (commitComment db u p cnt _ _).2 := congrArg Prod.snd hcommit
          rw [hdb]
          exact commit_preserves db u p cnt _ _ hwf hinv

theorem createPost_applyOp_preserves (db : DB) (u : Nat) (cnt : String)
    (pv : Option String) (hwf : idsWF db) (hinv : countersInv db) :
    idsWF (applyOp db (.createPostOp u cnt pv)) ∧
      countersInv (applyOp db (.createPostOp u cnt pv)) := by
  obtain ⟨hwp, hwc, hwl⟩ := hwf
  unfold applyOp createPost
  dsimp only
  by_cases hen : (pv.getD "public" == "public" || pv.getD "public" == "private") = true
  · rw [if_pos hen]
    dsimp only
    constructor
    · refine ⟨?_, hwc, hwl⟩
      rw [List.map_cons, List.nodup_cons]
      refine ⟨?_, hwp⟩
      intro hmem
      rcases List.mem_map.1 hmem with ⟨x, hx, hid⟩
      exact post_id_ne_freshId hx hid
    · intro P' hP'
      rcases List.mem_cons.1 hP' with rfl | hP
      · constructor
        · show postTally db.likes (freshId db) ≤ 0
          have hnil : db.likes.filter (tallyPred (freshId db)) = [] := by
            apply List.filter_eq_nil_iff.2
            intro l hl
            unfold tallyPred
            simp [like_targetId_ne_freshId hl]
          unfold postTally
          rw [hnil]
          simp
        · show (0 : Int) ≤ 0
          omega
      · exact hinv P' hP
  · rw [if_neg hen]
    exact ⟨⟨hwp, hwc, hwl⟩, hinv⟩

theorem applyOp_preserves (db : DB) (op : Op)
    (hwf : idsWF db) (hinv : countersInv db) :
    idsWF (applyOp db op) ∧ countersInv (applyOp db op) := by
  cases op with
  | reactOp u tt i rt => exact react_preserves db u tt i rt hwf hinv
  | addCommentOp u p c pid => exact addComment_applyOp_preserves db u p c pid hwf hinv
  | legacyLikeOp u p =>
      show idsWF (legacyLike db u p).2 ∧ countersInv (legacyLike db u p).2
      rw [legacyLike_spec]
      exact ⟨hwf, hinv⟩
  | createPostOp u c pv => exact createPost_applyOp_preserves db u c pv hwf hinv

theorem runOps_preserves (ops : List Op) (db : DB)
    (hwf : idsWF db) (hinv : countersInv db) :
    idsWF (runOps db ops) ∧ countersInv (runOps db ops) := by
  induction ops generalizing db with
  | nil => exact ⟨hwf, hinv⟩
  | cons op ops ih =>
      have h := applyOp_preserves db op hwf hinv
      exact ih (applyOp db op) h.1 h.2

/-- C9: counter non-negativity.  Starting from the empty store, no sequence
of the exposed operations (`react`, `addComment`, the legacy like/unlike,
post creation — each post starting at `likesCount = 0`, `commentsCount = 0`)
ever drives a post's `likesCount` or `commentsCount` below zero. -/
theorem counters_nonnegative (ops : List Op) :
    ∀ P ∈ (runOps emptyDB ops).posts, 0 ≤ P.likesCount ∧ 0 ≤ P.commentsCount := by
  have hempty_wf : idsWF emptyDB := by
    refine ⟨?_, ?_, ?_⟩ <;> simp [emptyDB]
  have hempty_inv : countersInv emptyDB := by
    intro P hP
    simp [emptyDB] at hP
  have hrun := runOps_preserves ops emptyDB hempty_wf hempty_inv
  intro P hP
  have h := hrun.2 P hP
  have h0 : (0 : Int) ≤ postTally (runOps emptyDB ops).likes P.id := by
    unfold postTally
    exact Int.natCast_nonneg _
  exact ⟨le_trans h0 h.1, h.2⟩

/-- Witness for C9: the post created by a single create operation. -/
theorem counters_nonnegative_witness :
    0 ≤ wPost.likesCount ∧ 0 ≤ wPost.commentsCount :=
  counters_nonnegative [Op.createPostOp 1 "x" none] wPost (by decide)

/-! Lemmas for the reply-count correspondence. -/

/-- The comment returned when a root comment is created is the freshly
persisted document. -/
theorem commitComment_fst_none (db : DB) (u p : Nat) (cnt : String) (rtu : Option Nat) :
    (commitComment db u p cnt none rtu).1 = newCommentDoc db u p cnt none rtu := by
  unfold commitComment
  dsimp only
  rw [List.find?_cons]
  have hc : ((newCommentDoc db u p cnt none rtu).id ==
      (newCommentDoc db u p cnt none rtu).id) = true := by simp
  rw [hc]
  rfl

/-- Running a reply sequence against root `rootId` keeps the root a root,
increments its `replyCount` once per reply, and increments the post's
`commentsCount` once per reply. -/
theorem replySeq_counts {p rootId : Nat} {db : DB} {k : Nat} {db' : DB}
    (hseq : ReplySeq p rootId db k db') :
    (db.comments.map Comment.id).Nodup →
    (findComment db rootId).map Comment.parentComment = some none →
    ((db'.comments.map Comment.id).Nodup ∧
     (findComment db' rootId).map Comment.parentComment = some none ∧
     (findComment db' rootId).map Comment.replyCount =
       (findComment db rootId).map (fun c => c.replyCount + (k : Int)) ∧
     (findPost db' p).map Post.commentsCount =
       (findPost db p).map (fun x => x.commentsCount + (k : Int))) := by
  induction hseq with
  | nil =>
      intro hwc hroot
      refine ⟨hwc, hroot, ?_, ?_⟩
      · cases findComment db rootId <;> simp
      · cases findPost db p <;> simp
  | snoc k dbm u cnt pid c dbe hseq hrt haC ih =>
      intro hwc hroot
      obtain ⟨hwc', hroot', hreply', hpost'⟩ := ih hwc hroot
      obtain ⟨R', hR'⟩ : ∃ R', findComment dbm rootId = some R' := by
        cases hfc : findComment dbm rootId with
        | none => rw [hfc] at hroot'; simp at hroot'
        | some x => exact ⟨x, rfl⟩
      rw [hR'] at hroot' hreply'
      have hRpc : R'.parentComment = none := by simpa using hroot'
      have hRmem : R' ∈ dbm.comments := List.mem_of_find?_eq_some hR'
      have hRid : R'.id = rootId := by simpa using List.find?_some hR'
      rcases addComment_ok_cases haC with ⟨hnone, _⟩ | ⟨pidv, parent, hpidv, hfindp, hcases⟩
      · exact absurd hnone (by simp)
      · have hpe : pid = pidv := by injection hpidv
        subst hpe
        have hpmem : parent ∈ dbm.comments := List.mem_of_find?_eq_some hfindp
        have hpid : parent.id = pid := by simpa using List.find?_some hfindp
        have hresolve : (c, dbe) =
            commitComment dbm u p cnt (some rootId) (some parent.userId) := by
          unfold isReplyTarget at hrt
          rw [Bool.or_eq_true] at hrt
          rcases hrt with h1 | h1
          · have hpr : pid = rootId := by simpa using h1
            subst hpr
            have hpR : parent = R' := by
              have h2 : some parent = some R' := hfindp.symm.trans hR'
              injection h2
            rcases hcases with ⟨_, hcom⟩ | ⟨r, hpps, _⟩
            · exact hcom
            · rw [hpR, hRpc] at hpps
              cases hpps
          · rcases List.any_eq_true.1 h1 with ⟨c0, hc0, hpred⟩
            simp only [Bool.and_eq_true, beq_iff_eq] at hpred
            obtain ⟨hc0id, hc0pc⟩ := hpred
            have hpc0 : parent = c0 :=
              List.inj_on_of_nodup_map hwc' hpmem hc0 (by rw [hpid, hc0id])
            rcases hcases with ⟨hppn, _⟩ | ⟨r, hpps, hcom⟩
            · rw [hpc0, hc0pc] at hppn
              cases hppn
            · have hrr : r = rootId := by
                rw [hpc0, hc0pc] at hpps
                injection hpps with h2
                exact h2.symm
              subst hrr
              exact hcom
        have hdbe : dbe =
            (commitComment dbm u p cnt (some rootId) (some parent.userId)).2 :=
          congrArg Prod.snd hresolve
        have hfreshC : freshId dbm ∉ dbm.comments.map Comment.id := by
          intro hmem
          rcases List.mem_map.1 hmem with ⟨x, hx, hid⟩
          exact comment_id_ne_freshId hx hid
        have hrootNe : rootId ≠ freshId dbm := by
          rw [← hRid]
          exact comment_id_ne_freshId hRmem
        have hcomments : dbe.comments =
            updateById Comment.id
              (newCommentDoc dbm u p cnt (some rootId) (some parent.userId) :: dbm.comments)
              rootId bumpReplyCount := by
          rw [hdbe, commitComment_comments_some]
        have hfind1 : (newCommentDoc dbm u p cnt (some rootId) (some parent.userId) ::
            dbm.comments).find? (fun x => x.id == rootId) = some R' := by
          rw [List.find?_cons]
          have hcond : ((newCommentDoc dbm u p cnt (some rootId)
              (some parent.userId)).id == rootId) = false := by
            simp only [beq_eq_false_iff_ne, ne_eq]
            exact fun h => hrootNe (h.symm)
          rw [hcond]
          exact hR'
        have hfind2 : findComment dbe rootId = some (bumpReplyCount R') := by
          unfold findComment
          rw [hcomments]
          exact find?_updateById_self Comment.id bumpReplyCount bumpReplyCount_id hfind1
        have hposts : dbe.posts = updateById Post.id dbm.posts p bumpPostComments := by
          rw [hdbe, commitComment_posts]
        refine ⟨?_, ?_, ?_, ?_⟩
        · rw [hcomments,
            map_updateById Comment.id bumpReplyCount Comment.id bumpReplyCount_id,
            List.map_cons, List.nodup_cons]
          exact ⟨hfreshC, hwc'⟩
        · rw [hfind2]
          show some (bumpReplyCount R').parentComment = some none
          rw [show (bumpReplyCount R').parentComment = R'.parentComment from rfl, hRpc]
        · rw [hfind2]
          cases hrc : findComment db rootId with
          | none => rw [hrc] at hreply'; simp at hreply'
          | some c₀ =>
              rw [hrc] at hreply'
              have hval : R'.replyCount = c₀.replyCount + (k : Int) := by
                injection hreply'
              show some (R'.replyCount + 1) = some (c₀.replyCount + ((k + 1 : Nat) : Int))
              rw [hval]
              congr 1
              push_cast
              ring
        · cases hfp : findPost dbm p with
          | none =>
              have hnone : findPost dbe p = none := by
                unfold findPost
                rw [hposts, updateById_of_find?_none Post.id bumpPostComments hfp]
                exact hfp
              rw [hnone]
              rw [hfp] at hpost'
              cases hfp0 : findPost db p with
              | none => simp
              | some q => rw [hfp0] at hpost'; simp at hpost'
          | some q' =>
              have hsome : findPost dbe p = some (bumpPostComments q') := by
                unfold findPost
                rw [hposts]
                exact find?_updateById_self Post.id bumpPostComments bumpPostComments_id hfp
              rw [hsome]
              rw [hfp] at hpost'
              cases hfp0 : findPost db p with
              | none => rw [hfp0] at hpost'; simp at hpost'
              | some q =>
                  rw [hfp0] at hpost'
                  have hval : q'.commentsCount = q.commentsCount + (k : Int) := by
                    injection hpost'
                  show some (q'.commentsCount + 1) = some (q.commentsCount + ((k + 1 : Nat) : Int))
                  rw [hval]
                  congr 1
                  push_cast
                  ring

/-- C7: reply-count correspondence.  After creating a root comment R (born
with `replyCount = 0`) and then K replies, each targeting R or any previously
created reply of R, R's `replyCount` equals K, and the owning post's
`commentsCount` has been incremented once per created comment (the root plus
the K replies). -/
theorem reply_count_correspondence (db0 : DB) (uR p : Nat) (cntR : String)
    (R : Comment) (db1 : DB) (K : Nat) (dbK : DB)
    (hwc0 : (db0.comments.map Comment.id).Nodup)
    (hroot : addComment db0 uR p cntR none = .ok (R, db1))
    (hseq : ReplySeq p R.id db1 K dbK) :
    commentReplyCount dbK R.id = some (K : Int) ∧
    postCommentsCount dbK p =
      (postCommentsCount db0 p).map (fun x => x + (1 + (K : Int))) := by
  rcases addComment_ok_cases hroot with ⟨_, hcommit⟩ | ⟨pidv, _, hpidv, _, _⟩
  swap
  · cases hpidv
  have hR : R = newCommentDoc db0 uR p cntR none none := by
    have h1 : R = (commitComment db0 uR p cntR none none).1 := congrArg Prod.fst hcommit
    rw [h1, commitComment_fst_none]
  have hdb1 : db1 = (commitComment db0 uR p cntR none none).2 :=
    congrArg Prod.snd hcommit
  have hcomments1 : db1.comments =
      newCommentDoc db0 uR p cntR none none :: db0.comments := by
    rw [hdb1, commitComment_comments_none]
  have hposts1 : db1.posts = updateById Post.id db0.posts p bumpPostComments := by
    rw [hdb1, commitComment_posts]
  have hfreshC : freshId db0 ∉ db0.comments.map Comment.id := by
    intro hmem
    rcases List.mem_map.1 hmem with ⟨x, hx, hid⟩
    exact comment_id_ne_freshId hx hid
  have hwc1 : (db1.comments.map Comment.id).Nodup := by
    rw [hcomments1, List.map_cons, List.nodup_cons]
    exact ⟨hfreshC, hwc0⟩
  have hfindR : findComment db1 R.id = some R := by
    unfold findComment
    rw [hcomments1, hR, List.find?_cons]
    have hc : ((newCommentDoc db0 uR p cntR none none).id ==
        (newCommentDoc db0 uR p cntR none none).id) = true := by simp
    rw [hc]
  have hroot1 : (findComment db1 R.id).map Comment.parentComment = some none := by
    rw [hfindR, hR]
    rfl
  obtain ⟨_, _, hreply, hpost⟩ := replySeq_counts hseq hwc1 hroot1
  constructor
  · unfold commentReplyCount
    rw [hreply, hfindR, hR]
    show some ((0 : Int) + (K : Int)) = some (K : Int)
    congr 1
    ring
  · unfold postCommentsCount
    rw [hpost]
    unfold findPost
    rw [hposts1]
    cases hfp0 : db0.posts.find? (fun x => x.id == p) with
    | none =>
        rw [updateById_of_find?_none Post.id bumpPostComments hfp0, hfp0]
        rfl
    | some q =>
        rw [find?_updateById_self Post.id bumpPostComments bumpPostComments_id hfp0]
        show some (q.commentsCount + 1 + (K : Int)) = some (q.commentsCount + (1 + (K : Int)))
        congr 1
        ring

/-- Witness for C7: the scenario root plus one reply, on post 50. -/
theorem reply_count_correspondence_witness :
    commentReplyCount scnDB2 scnRoot.id = some ((1 : Nat) : Int) ∧
    postCommentsCount scnDB2 50 =
      (postCommentsCount emptyDB 50).map (fun x => x + (1 + ((1 : Nat) : Int))) :=
  reply_count_correspondence emptyDB 1 50 "root" scnRoot scnDB1 1 scnDB2
    (by decide) (by rfl)
    (ReplySeq.snoc scnDB1 0 scnDB1 2 "a" 1 scnReply scnDB2
      (ReplySeq.nil scnDB1) (by decide) (by rfl))

end Social
